import Mathlib

/-!
Verification development for gnucashxml.py, a decoder of GnuCash XML books.

The Python module is shallowly embedded: class instances become structures,
functions become Lean functions, exceptions become an explicit error type in
`Except`, and Python dicts become association lists with dict update
semantics.  Machine-level quantities do not occur (Python integers are
arbitrary precision); the `decimal` module is tracked at the level of the
rational values of its results.
-/

namespace Gnucash

/-- Python exception values reachable inside the decoder.  The specification's
error taxonomy maps onto these concrete exceptions: InvalidDocument and
MalformedNumber surface as `valueError`, UnknownSlotType as `runtimeError`,
the unresolved account and commodity references as `keyError`, and the
decimal module contributes `invalidOperation` and `divisionByZero`. -/
inductive PyError where
  | valueError (msg : String)
  | typeError (msg : String)
  | keyError
  | attributeError
  | nameError (missing : String)
  | runtimeError (msg : String)
  | invalidOperation
  | divisionByZero
  deriving DecidableEq, Repr

/-! ## The decimal module, tracked at the level of rational values

`_parse_number` computes `Decimal(num) / Decimal(denum)`.  Decimal division
at the default context rounds the exact quotient to 28 significant digits
with round-half-even.  We model the value of the result as a rational. -/

/-- Fuel-driven base-10 logarithm on naturals (number of digits minus one),
structural in the fuel so that it evaluates by kernel reduction. -/
def log10F : Nat → Nat → Nat
  | 0, _ => 0
  | fuel + 1, n => if n < 10 then 0 else log10F fuel (n / 10) + 1

def natLog10 (n : Nat) : Nat := log10F n n

theorem log10F_bounds : ∀ fuel n, n ≤ fuel → 1 ≤ n →
    10 ^ log10F fuel n ≤ n ∧ n < 10 ^ (log10F fuel n + 1) := by
  intro fuel
  induction fuel with
  | zero => intro n h1 h2; omega
  | succ f ih =>
    intro n hle h1
    by_cases h : n < 10
    · simp only [log10F, if_pos h]
      constructor
      · simpa using h1
      · simpa using h
    · have hn10 : 10 ≤ n := by omega
      have hdiv : n / 10 < n := Nat.div_lt_self (by omega) (by omega)
      have hrec := ih (n / 10) (by omega) (by omega)
      simp only [log10F, if_neg h]
      obtain ⟨hlo, hhi⟩ := hrec
      have e1 : 10 ^ (log10F f (n / 10) + 1) = 10 ^ log10F f (n / 10) * 10 := by
        rw [pow_succ]
      have e2 : 10 ^ (log10F f (n / 10) + 1 + 1) = 10 ^ (log10F f (n / 10) + 1) * 10 := by
        rw [pow_succ]
      omega

theorem natLog10_bounds (n : Nat) (h : 1 ≤ n) :
    10 ^ natLog10 n ≤ n ∧ n < 10 ^ (natLog10 n + 1) :=
  log10F_bounds n n le_rfl h

/-- Powers of ten as rationals, with the integer exponent unfolded to natural
powers so that concrete instances evaluate by kernel reduction. -/
def pow10 (k : Int) : ℚ :=
  match k with
  | .ofNat n => ((10 ^ n : Nat) : ℚ)
  | .negSucc n => 1 / ((10 ^ (n + 1) : Nat) : ℚ)

theorem pow10_eq (k : Int) : pow10 k = (10 : ℚ) ^ k := by
  cases k with
  | ofNat n =>
    simp only [pow10, Int.ofNat_eq_coe, zpow_natCast]
    push_cast
    ring
  | negSucc n =>
    simp only [pow10, zpow_negSucc, one_div]
    push_cast
    ring

theorem pow10_pos (k : Int) : 0 < pow10 k := by
  rw [pow10_eq]
  positivity

/-- A finite decimal value: sign, arbitrary-precision coefficient, exponent.
`Dec.val` is the rational value of the literal. -/
structure Dec where
  neg : Bool
  coeff : Nat
  exp : Int
  deriving DecidableEq, Repr

def Dec.val (d : Dec) : ℚ :=
  (if d.neg then (-1 : ℚ) else 1) * (d.coeff : ℚ) * pow10 d.exp

def digitsVal (cs : List Char) : Nat :=
  cs.foldl (fun a c => a * 10 + (c.toNat - 48)) 0

def spanDigits : List Char → List Char × List Char
  | [] => ([], [])
  | c :: cs =>
    if c.isDigit then
      let r := spanDigits cs
      (c :: r.1, r.2)
    else ([], c :: cs)

def parseSign : List Char → Bool × List Char
  | '-' :: cs => (true, cs)
  | '+' :: cs => (false, cs)
  | cs => (false, cs)

def decExp (neg : Bool) (ds : List Char) (shift : Int) : List Char → Option Dec
  | [] => some ⟨neg, digitsVal ds, shift⟩
  | e :: cs =>
    if e = 'e' ∨ e = 'E' then
      let s1 := parseSign cs
      let s2 := spanDigits s1.2
      if s2.1.isEmpty ∨ !s2.2.isEmpty then none
      else some ⟨neg, digitsVal ds,
        (if s1.1 then -(digitsVal s2.1 : Int) else (digitsVal s2.1 : Int)) + shift⟩
    else none

/-- Model of the numeric-literal syntax accepted by `decimal.Decimal` on a
string: sign? (digits [. digits?] | . digits) ([eE] sign? digits)?.  The
special values (NaN, Infinity), underscores, and surrounding whitespace that
Python additionally tolerates are outside this model. -/
def decString (s : String) : Option Dec :=
  let s1 := parseSign s.data
  let s2 := spanDigits s1.2
  match s2.2 with
  | '.' :: cs3 =>
    let s3 := spanDigits cs3
    if s2.1.isEmpty ∧ s3.1.isEmpty then none
    else decExp s1.1 (s2.1 ++ s3.1) (-(s3.1.length : Int)) s3.2
  | _ =>
    if s2.1.isEmpty then none
    else decExp s1.1 s2.1 0 s2.2

/-- Floor-of-log-base-10 of a positive rational, computed from the digit
counts of numerator and denominator with a correction step. -/
def ilog10 (a : ℚ) : Int :=
  let g : Int := (natLog10 a.num.natAbs : Int) - (natLog10 a.den : Int)
  if pow10 g ≤ a then g else g - 1

/-- Round to the nearest integer, ties to even (the pydecimal default). -/
def roundHalfEven (m : ℚ) : Int :=
  let f := ⌊m⌋
  let frac := m - (f : ℚ)
  if frac < 1 / 2 then f
  else if 1 / 2 < frac then f + 1
  else if f % 2 = 0 then f else f + 1

/-- Value of decimal division at the default context (precision 28,
ROUND_HALF_EVEN): the exact quotient, correctly rounded to 28 significant
digits.  Exponent bookkeeping of the decimal representation, which never
changes the value, is dropped. -/
def decDivVal (x y : ℚ) : ℚ :=
  let r := x / y
  if r = 0 then 0
  else
    let a := |r|
    let e := ilog10 a
    let q := roundHalfEven (a * pow10 (27 - e))
    (if r < 0 then (-1 : ℚ) else 1) * (q : ℚ) * pow10 (e - 27)

/-- Python `str.split` with a one-character separator: splits at every
occurrence of the separator and keeps empty pieces. -/
def splitChar (sep : Char) : List Char → List (List Char)
  | [] => [[]]
  | c :: cs =>
    match splitChar sep cs with
    | [] => [[]]
    | g :: gs => if c = sep then [] :: g :: gs else (c :: g) :: gs

/-- `_parse_number`: `num, denum = numstring.split("/")` followed by
`Decimal(num) / Decimal(denum)`.  A split into anything but two pieces is the
tuple-unpacking ValueError; a piece that is not a decimal literal raises
`decimal.InvalidOperation`; a zero denominator raises
`decimal.DivisionByZero` (`InvalidOperation` when the numerator is zero as
well, the 0/0 case). -/
def parseNumber (s : String) : Except PyError ℚ :=
  match splitChar '/' s.data with
  | [nu, de] =>
    match decString (String.mk nu), decString (String.mk de) with
    | some dn, some dd =>
      if dd.val = 0 then
        .error (if dn.val = 0 then .invalidOperation else .divisionByZero)
      else .ok (decDivVal dn.val dd.val)
    | _, _ => .error .invalidOperation
  | _ => .error (.valueError "not enough values to unpack")

deriving instance DecidableEq for Except

/-! ## Facts about the decimal model -/

theorem pow10_add (a b : Int) : pow10 (a + b) = pow10 a * pow10 b := by
  rw [pow10_eq, pow10_eq, pow10_eq, zpow_add₀ (by norm_num : (10 : ℚ) ≠ 0)]

theorem pow10_natCast (n : Nat) : pow10 (n : Int) = ((10 ^ n : Nat) : ℚ) := rfl

/-- The candidate-with-correction computation in `ilog10` really is a lower
bound: `10 ^ ilog10 a ≤ a` for positive `a`. -/
theorem ilog10_le (a : ℚ) (ha : 0 < a) : pow10 (ilog10 a) ≤ a := by
  have hnum : 0 < a.num := Rat.num_pos.mpr ha
  set p := a.num.natAbs with hp
  set q := a.den with hq
  have hp1 : 1 ≤ p := by
    have := Int.natAbs_pos.mpr (ne_of_gt hnum)
    omega
  have hq1 : 1 ≤ q := a.pos
  obtain ⟨hplo, _⟩ := natLog10_bounds p hp1
  obtain ⟨_, hqhi⟩ := natLog10_bounds q hq1
  have hpq : a = (p : ℚ) / (q : ℚ) := by
    have h1 : (p : ℚ) = (a.num : ℚ) := by
      have h2 : ((p : Nat) : Int) = a.num := by
        rw [hp]
        exact Int.natAbs_of_nonneg hnum.le
      exact_mod_cast h2
    rw [h1, hq, Rat.num_div_den]
  -- the strict lower estimate 10 ^ (Lp - Lq - 1) < a
  have hstrict : pow10 ((natLog10 p : Int) - (natLog10 q : Int) - 1) < a := by
    have h10 : ((10 : ℚ) ^ (natLog10 p : Int)) / ((10 : ℚ) ^ ((natLog10 q : Int) + 1)) <
        (p : ℚ) / (q : ℚ) := by
      rw [div_lt_div_iff₀ (by positivity) (by exact_mod_cast hq1)]
      have c1 : ((10 : ℚ) ^ (natLog10 p : Int)) = ((10 ^ natLog10 p : Nat) : ℚ) := by
        rw [zpow_natCast]; push_cast; ring
      have c2 : ((10 : ℚ) ^ ((natLog10 q : Int) + 1)) = ((10 ^ (natLog10 q + 1) : Nat) : ℚ) := by
        have : ((natLog10 q : Int) + 1) = ((natLog10 q + 1 : Nat) : Int) := by push_cast; ring
        rw [this, zpow_natCast]; push_cast; ring
      rw [c1, c2]
      calc ((10 ^ natLog10 p : Nat) : ℚ) * (q : ℚ) ≤ (p : ℚ) * (q : ℚ) := by
            apply mul_le_mul_of_nonneg_right _ (by positivity)
            exact_mod_cast hplo
        _ < (p : ℚ) * ((10 ^ (natLog10 q + 1) : Nat) : ℚ) := by
            apply mul_lt_mul_of_pos_left _ (by exact_mod_cast hp1)
            exact_mod_cast hqhi
    rw [pow10_eq, hpq]
    calc (10 : ℚ) ^ ((natLog10 p : Int) - (natLog10 q : Int) - 1)
        = ((10 : ℚ) ^ (natLog10 p : Int)) / ((10 : ℚ) ^ ((natLog10 q : Int) + 1)) := by
          rw [← zpow_sub₀ (by norm_num : (10 : ℚ) ≠ 0)]
          congr 1
          ring
      _ < (p : ℚ) / (q : ℚ) := h10
  unfold ilog10
  by_cases hcond : pow10 ((natLog10 a.num.natAbs : Int) - (natLog10 a.den : Int)) ≤ a
  · simp [hcond]
  · simp only [hcond, if_false]
    exact le_of_lt hstrict

theorem roundHalfEven_intCast (z : Int) : roundHalfEven (z : ℚ) = z := by
  unfold roundHalfEven
  norm_num

/-- Correct rounding is exact on exactly-representable quotients: whenever
`x / y` can be written with at most 28 significant decimal digits, decimal
division returns it unchanged. -/
theorem decDivVal_exact (x y : ℚ) (c k : Int) (h : x / y = (c : ℚ) * pow10 k)
    (hc : c.natAbs < 10 ^ 28) : decDivVal x y = x / y := by
  unfold decDivVal
  by_cases hr : x / y = 0
  · simp [hr]
  · simp only [if_neg hr]
    have habs : |x / y| = (c.natAbs : ℚ) * pow10 k := by
      rw [h, abs_mul, abs_of_pos (pow10_pos k), Int.cast_natAbs, Int.cast_abs]
    have ha : 0 < |x / y| := abs_pos.mpr hr
    have hE0 : pow10 (ilog10 |x / y|) ≤ |x / y| := ilog10_le _ ha
    obtain ⟨E, hEeq⟩ : ∃ E, ilog10 |x / y| = E := ⟨_, rfl⟩
    rw [hEeq] at hE0 ⊢
    have hup : |x / y| < pow10 (k + 28) := by
      rw [habs, add_comm, pow10_add]
      apply mul_lt_mul_of_pos_right _ (pow10_pos k)
      have h28 : pow10 (28 : Int) = ((10 ^ 28 : Nat) : ℚ) := rfl
      rw [h28]
      exact_mod_cast hc
    have hEk : E ≤ k + 27 := by
      have h2 : pow10 E < pow10 (k + 28) := lt_of_le_of_lt hE0 hup
      rw [pow10_eq, pow10_eq] at h2
      have := (zpow_lt_zpow_iff_right₀ (by norm_num : (1 : ℚ) < 10)).mp h2
      omega
    have hm : |x / y| * pow10 (27 - E) = ((c.natAbs * 10 ^ (k + 27 - E).toNat : Nat) : ℚ) := by
      rw [habs, mul_assoc, ← pow10_add]
      have h27 : k + (27 - E) = (((k + 27 - E).toNat : Nat) : Int) := by
        rw [Int.toNat_of_nonneg (by omega)]
        ring
      rw [h27, pow10_natCast]
      push_cast [Int.cast_natAbs]
      ring
    have hround : roundHalfEven (|x / y| * pow10 (27 - E)) =
        ((c.natAbs * 10 ^ (k + 27 - E).toNat : Nat) : Int) := by
      rw [hm]
      have hcast : ((c.natAbs * 10 ^ (k + 27 - E).toNat : Nat) : ℚ) =
          (((c.natAbs * 10 ^ (k + 27 - E).toNat : Nat) : Int) : ℚ) := by
        push_cast [Int.cast_natAbs]
        ring
      rw [hcast]
      exact roundHalfEven_intCast _
    rw [hround]
    have hback : (((c.natAbs * 10 ^ (k + 27 - E).toNat : Nat) : Int) : ℚ) =
        |x / y| * pow10 (27 - E) := by
      rw [hm]
      push_cast [Int.cast_natAbs]
      ring
    rw [hback]
    have hcancel : pow10 (27 - E) * pow10 (E - 27) = 1 := by
      rw [← pow10_add]
      have h0 : 27 - E + (E - 27) = 0 := by ring
      rw [h0]
      rfl
    by_cases hneg : x / y < 0
    · simp only [if_pos hneg]
      rw [abs_of_neg hneg]
      calc (-1 : ℚ) * (-(x / y) * pow10 (27 - E)) * pow10 (E - 27)
          = x / y * (pow10 (27 - E) * pow10 (E - 27)) := by ring
        _ = x / y := by rw [hcancel]; ring
    · simp only [if_neg hneg]
      have hpos : 0 < x / y := lt_of_le_of_ne (not_lt.mp hneg) (Ne.symm hr)
      rw [abs_of_pos hpos]
      calc (1 : ℚ) * (x / y * pow10 (27 - E)) * pow10 (E - 27)
          = x / y * (pow10 (27 - E) * pow10 (E - 27)) := by ring
        _ = x / y := by rw [hcancel]; ring

/-! ## Facts about splitting -/

theorem splitChar_of_not_mem (sep : Char) :
    ∀ l : List Char, sep ∉ l → splitChar sep l = [l] := by
  intro l
  induction l with
  | nil => intro _; rfl
  | cons c cs ih =>
    intro h
    have hc : ¬c = sep := by
      intro hcs
      exact h (by simp [hcs])
    have hcs : sep ∉ cs := by
      intro hmem
      exact h (by simp [hmem])
    simp [splitChar, ih hcs, hc]

theorem splitChar_ne_nil (sep : Char) : ∀ l : List Char, splitChar sep l ≠ [] := by
  intro l
  cases l with
  | nil => simp [splitChar]
  | cons c cs =>
    simp only [splitChar]
    cases splitChar sep cs with
    | nil => simp
    | cons g gs =>
      by_cases hc : c = sep <;> simp [hc]

theorem splitChar_append (sep : Char) (l1 l2 : List Char) (h : sep ∉ l1) :
    splitChar sep (l1 ++ sep :: l2) = l1 :: splitChar sep l2 := by
  induction l1 with
  | nil =>
    simp only [List.nil_append, splitChar]
    cases hs : splitChar sep l2 with
    | nil => exact absurd hs (splitChar_ne_nil sep l2)
    | cons g gs => simp
  | cons c cs ih =>
    have hc : ¬c = sep := by intro hcs; exact h (by simp [hcs])
    have hcs : sep ∉ cs := by intro hmem; exact h (by simp [hmem])
    simp only [List.cons_append, splitChar, List.append_eq, ih hcs, hc, if_false]

theorem splitChar_length_count (sep : Char) :
    ∀ l : List Char, (splitChar sep l).length = l.count sep + 1 := by
  intro l
  induction l with
  | nil => rfl
  | cons c cs ih =>
    simp only [splitChar]
    cases hs : splitChar sep cs with
    | nil => rw [hs] at ih; simp at ih
    | cons g gs =>
      rw [hs] at ih
      simp only [List.length_cons] at ih
      by_cases hc : c = sep
      · subst hc
        simp only [if_pos rfl, List.length_cons, List.count_cons, beq_self_eq_true, if_true]
        omega
      · have hbeq : (c == sep) = false := by simp [hc]
        simp only [if_neg hc, List.length_cons, List.count_cons, hbeq, Bool.false_eq_true,
          if_false]
        omega

end Gnucash

namespace Gnucash

/-! ## Behaviour of _parse_number on well-shaped literals -/

theorem stringEta (s : String) : String.mk s.data = s := rfl

theorem parseNumber_append (a b : String) (ha : ('/' : Char) ∉ a.data)
    (hb : ('/' : Char) ∉ b.data) :
    parseNumber (a ++ "/" ++ b) =
      (match decString a, decString b with
       | some dn, some dd =>
         if dd.val = 0 then
           .error (if dn.val = 0 then .invalidOperation else .divisionByZero)
         else .ok (decDivVal dn.val dd.val)
       | _, _ => .error .invalidOperation) := by
  have happ : ∀ x y : String, (x ++ y).data = x.data ++ y.data := by
    intro x y
    cases x
    cases y
    rfl
  have hdata : (a ++ "/" ++ b).data = a.data ++ '/' :: b.data := by
    rw [happ, happ]
    simp [show "/".data = ['/'] from rfl]
  simp only [parseNumber, hdata, splitChar_append '/' a.data b.data ha,
    splitChar_of_not_mem '/' b.data hb, stringEta]

unseal Rat.mul Rat.add Rat.inv Rat.sub in
/-- C1, counterexample: the rational value parser is not exact for all
integer pairs.  Decoding "1/3" produces the default-context decimal quotient,
`0.3333333333333333333333333333` (28 digits), which differs from the exact
rational 1/3: `decimal.Decimal` division rounds to 28 significant digits at
parse time. -/
theorem c1_counterexample_one_third :
    parseNumber "1/3" = .ok ((3333333333333333333333333333 : ℚ) / 10 ^ 28) ∧
    ((3333333333333333333333333333 : ℚ) / 10 ^ 28) ≠ (1 : ℚ) / 3 := by
  decide

unseal Rat.mul Rat.add Rat.inv Rat.sub in
/-- C1, amended: for every literal "n/d" whose two sides are decimal
literals and whose denominator is nonzero, `_parse_number` returns the value
of `Decimal(n) / Decimal(d)`, the exact quotient correctly rounded to 28
significant digits (round-half-even).  The value is exact whenever the
quotient is representable with at most 28 significant digits; in particular
"-7/2" decodes to exactly -3.5. -/
theorem c1_rounded_rational_value (a b : String) (da db : Dec)
    (ha : ('/' : Char) ∉ a.data) (hb : ('/' : Char) ∉ b.data)
    (hda : decString a = some da) (hdb : decString b = some db)
    (hnz : db.val ≠ 0) :
    parseNumber (a ++ "/" ++ b) = .ok (decDivVal da.val db.val) ∧
    (∀ c k : Int, da.val / db.val = (c : ℚ) * pow10 k → c.natAbs < 10 ^ 28 →
      decDivVal da.val db.val = da.val / db.val) ∧
    parseNumber "-7/2" = .ok (-7 / 2 : ℚ) := by
  refine ⟨?_, ?_, by decide⟩
  · rw [parseNumber_append a b ha hb, hda, hdb]
    simp only [if_neg hnz]
  · intro c k h1 h2
    exact decDivVal_exact _ _ c k h1 h2

unseal Rat.mul Rat.add Rat.inv Rat.sub in
theorem c1_rounded_rational_value_witness :
    decString "1" = some ⟨false, 1, 0⟩ ∧ decString "4" = some ⟨false, 4, 0⟩ ∧
    parseNumber "1/4" = .ok (decDivVal (Dec.val ⟨false, 1, 0⟩) (Dec.val ⟨false, 4, 0⟩)) :=
  ⟨by decide, by decide,
    (c1_rounded_rational_value "1" "4" ⟨false, 1, 0⟩ ⟨false, 4, 0⟩ (by decide) (by decide)
      (by decide) (by decide) (by decide)).1⟩

unseal Rat.mul Rat.add Rat.inv Rat.sub in
/-- C8, counterexample: "1/0" consists of exactly one '/' separating two
valid integer literals, yet `_parse_number` raises (decimal.DivisionByZero)
instead of succeeding as the claim requires. -/
theorem c8_counterexample_zero_denominator :
    parseNumber "1/0" = .error .divisionByZero := by
  decide

unseal Rat.mul Rat.add Rat.inv Rat.sub in
/-- C8, amended: `_parse_number` fails exactly when the literal contains
zero or more than one '/' (the tuple-unpacking ValueError), when a side is
not a valid decimal numeral — decimal fractions and exponents are accepted,
not only integers — (decimal.InvalidOperation), or when the denominator's
value is zero (decimal.DivisionByZero; InvalidOperation for "0/0"); it
succeeds on every other literal with exactly one '/', e.g. the non-integer
"1.5/2". -/
theorem c8_parse_number_failure_modes :
    (∀ s : String, s.data.count '/' ≠ 1 →
      parseNumber s = .error (.valueError "not enough values to unpack")) ∧
    (∀ a b : String, ('/' : Char) ∉ a.data → ('/' : Char) ∉ b.data →
      (decString a = none ∨ decString b = none) →
      parseNumber (a ++ "/" ++ b) = .error .invalidOperation) ∧
    (∀ a b : String, ∀ da db : Dec, ('/' : Char) ∉ a.data → ('/' : Char) ∉ b.data →
      decString a = some da → decString b = some db → db.val = 0 →
      parseNumber (a ++ "/" ++ b) =
        .error (if da.val = 0 then .invalidOperation else .divisionByZero)) ∧
    (∀ a b : String, ∀ da db : Dec, ('/' : Char) ∉ a.data → ('/' : Char) ∉ b.data →
      decString a = some da → decString b = some db → db.val ≠ 0 →
      parseNumber (a ++ "/" ++ b) = .ok (decDivVal da.val db.val)) ∧
    parseNumber "1.5/2" = .ok (3 / 4 : ℚ) := by
  refine ⟨?_, ?_, ?_, ?_, by decide⟩
  · intro s hcount
    have hlen : (splitChar '/' s.data).length ≠ 2 := by
      rw [splitChar_length_count]
      omega
    simp only [parseNumber]
    cases hl : splitChar '/' s.data with
    | nil => rfl
    | cons x t =>
      cases t with
      | nil => rfl
      | cons y u =>
        cases u with
        | nil => rw [hl] at hlen; simp at hlen
        | cons z v => rfl
  · intro a b ha hb hbad
    rw [parseNumber_append a b ha hb]
    rcases hbad with hbad | hbad
    · rw [hbad]
    · rw [hbad]
      cases decString a <;> rfl
  · intro a b da db ha hb hda hdb hz
    rw [parseNumber_append a b ha hb, hda, hdb]
    simp only [if_pos hz]
  · intro a b da db ha hb hda hdb hnz
    rw [parseNumber_append a b ha hb, hda, hdb]
    simp only [if_neg hnz]

unseal Rat.mul Rat.add Rat.inv Rat.sub in
theorem c8_parse_number_failure_modes_witness :
    parseNumber "3" = .error (.valueError "not enough values to unpack") ∧
    parseNumber "x/2" = .error .invalidOperation ∧
    parseNumber "3/0.0" =
      .error (if Dec.val ⟨false, 3, 0⟩ = 0 then .invalidOperation else .divisionByZero) ∧
    parseNumber "3/2" = .ok (decDivVal (Dec.val ⟨false, 3, 0⟩) (Dec.val ⟨false, 2, 0⟩)) :=
  ⟨c8_parse_number_failure_modes.1 "3" (by decide),
   c8_parse_number_failure_modes.2.1 "x" "2" (by decide) (by decide) (Or.inl (by decide)),
   c8_parse_number_failure_modes.2.2.1 "3" "0.0" ⟨false, 3, 0⟩ ⟨false, 0, -1⟩ (by decide)
     (by decide) (by decide) (by decide) (by decide),
   c8_parse_number_failure_modes.2.2.2.1 "3" "2" ⟨false, 3, 0⟩ ⟨false, 2, 0⟩ (by decide)
     (by decide) (by decide) (by decide) (by decide)⟩

end Gnucash

namespace Gnucash

/-! ## XML elements

An XML element as the decoder sees it: a namespace-expanded tag, the
attribute list, the text content, and the child elements in document order.
Namespace prefixes of the source document are taken as already resolved to
the Clark form used throughout gnucashxml.py. -/

inductive XElem where
  | mk (tag : String) (attrib : List (String × String)) (text : Option String)
      (children : List XElem)

def XElem.tag : XElem → String
  | .mk t _ _ _ => t

def XElem.attrib : XElem → List (String × String)
  | .mk _ a _ _ => a

def XElem.text : XElem → Option String
  | .mk _ _ tx _ => tx

def XElem.children : XElem → List XElem
  | .mk _ _ _ cs => cs

/-- ElementTree `find` restricted to a direct-child tag (the only form the
slot decoder needs): the first child with the given tag, if any. -/
def findChild (e : XElem) (t : String) : Option XElem :=
  e.children.find? (fun c => c.tag == t)

/-- ElementTree `Element.get`: attribute lookup with a default. -/
def attrGet (e : XElem) (key dflt : String) : String :=
  match e.attrib.find? (fun kv => kv.1 == key) with
  | some kv => kv.2
  | none => dflt

/-- `elem.attrib[key]`: attribute subscript, `KeyError` when absent. -/
def attrLookup (e : XElem) (key : String) : Option String :=
  (e.attrib.find? (fun kv => kv.1 == key)).map (fun kv => kv.2)

theorem sizeOf_children_lt (e : XElem) : sizeOf e.children < sizeOf e := by
  cases e with
  | mk t a tx cs =>
    have h := XElem.mk.sizeOf_spec t a tx cs
    simp only [XElem.children, h]
    omega

theorem sizeOf_findChild_lt (e : XElem) (t : String) (c : XElem)
    (h : findChild e t = some c) : sizeOf c < sizeOf e := by
  have hmem : c ∈ e.children := List.mem_of_find?_eq_some h
  have h1 : sizeOf c < sizeOf e.children := List.sizeOf_lt_of_mem hmem
  exact lt_trans h1 (sizeOf_children_lt e)

/-! ## Python dicts as association lists -/

/-- Python dict assignment `d[k] = v`: replace in place when the key is
present (dicts keep the original insertion position), else append. -/
def dictInsert {α β : Type} [BEq α] : List (α × β) → α → β → List (α × β)
  | [], k, v => [(k, v)]
  | kv :: rest, k, v =>
    if kv.1 == k then (k, v) :: rest else kv :: dictInsert rest k v

/-- Python dict subscript `d[k]`, `none` standing for the KeyError case. -/
def dictLookup {α β : Type} [BEq α] (l : List (α × β)) (k : α) : Option β :=
  (l.find? (fun kv => kv.1 == k)).map (fun kv => kv.2)

/-! ## Dates and Python int() -/

/-- A parsed date, kept as its source text. -/
structure PyDate where
  raw : String
  deriving DecidableEq, Repr

/-- `dateutil.parser.parse`, modelled as a total wrapper keeping the input
text.  Inputs on which dateutil itself raises are outside this model. -/
def parseDate (s : String) : PyDate := ⟨s⟩

/-- Python `int()` on a string: optional sign followed by digits.  (The
whitespace and underscore tolerance of CPython is outside this model.) -/
def pyInt (s : String) : Option Int :=
  match s.data with
  | '-' :: cs => if cs ≠ [] ∧ cs.all Char.isDigit then some (-(digitsVal cs : Int)) else none
  | '+' :: cs => if cs ≠ [] ∧ cs.all Char.isDigit then some ((digitsVal cs : Int)) else none
  | cs => if cs ≠ [] ∧ cs.all Char.isDigit then some ((digitsVal cs : Int)) else none

/-! ## The slot decoder (_slots_from_tree) -/

def slotKeyTag : String := "\x7bhttp://www.gnucash.org/XML/slot\x7dkey"

def slotValueTag : String := "\x7bhttp://www.gnucash.org/XML/slot\x7dvalue"

def tsDateTag : String := "\x7bhttp://www.gnucash.org/XML/ts\x7ddate"

/-- The slot value types recognized by `_slots_from_tree`. -/
def slotTypes : List String :=
  ["integer", "double", "numeric", "string", "guid", "gdate", "timespec", "frame", "list"]

/-- A decoded slot value: the recursive tagged union of the metadata format.
A slot key is `kelt.text` and may be absent (`none`), as in Python where
`None` is a legal dict key. -/
inductive SlotValue where
  | int (i : Int)
  | numeric (q : ℚ)
  | str (s : Option String)
  | date (d : PyDate)
  | frame (m : List (Option String × SlotValue))
  | list (l : List (List (Option String × SlotValue)))

abbrev SlotDict := List (Option String × SlotValue)

mutual

/-- `_slots_from_tree` on a present container: iterate the direct children
with (unnamespaced) tag "slot", filling a dict. -/
def slotsContainer (t : XElem) : Except PyError SlotDict :=
  slotsLoop t.children []
termination_by (sizeOf t, 0)
decreasing_by
  exact Prod.Lex.left _ _ (sizeOf_children_lt t)

def slotsLoop : List XElem → SlotDict → Except PyError SlotDict
  | [], acc => .ok acc
  | e :: es, acc =>
    if e.tag = "slot" then
      match findChild e slotKeyTag with
      | none => .error .attributeError
      | some kelt =>
        match h : findChild e slotValueTag with
        | none => .error .attributeError
        | some v =>
          match slotValueDecode v with
          | .error err => .error err
          | .ok sv => slotsLoop es (dictInsert acc kelt.text sv)
    else slotsLoop es acc
termination_by es acc => (sizeOf es, 2)
decreasing_by
  · apply Prod.Lex.left
    have h1 := sizeOf_findChild_lt e slotValueTag v h
    have h2 : sizeOf (e :: es) = 1 + sizeOf e + sizeOf es := by simp
    omega
  · apply Prod.Lex.left
    have h2 : sizeOf (e :: es) = 1 + sizeOf e + sizeOf es := by simp
    omega
  · apply Prod.Lex.left
    have h2 : sizeOf (e :: es) = 1 + sizeOf e + sizeOf es := by simp
    omega

/-- Decode one slot value element, dispatching on the declared `type`
attribute (default "string"). -/
def slotValueDecode (v : XElem) : Except PyError SlotValue :=
  let ty := attrGet v "type" "string"
  if ty = "integer" ∨ ty = "double" then
    match v.text with
    | none => .error (.typeError "int() argument must not be None")
    | some tx =>
      match pyInt tx with
      | none => .error (.valueError "invalid literal for int()")
      | some i => .ok (.int i)
  else if ty = "numeric" then
    match v.text with
    | none => .error .attributeError
    | some tx =>
      match parseNumber tx with
      | .error err => .error err
      | .ok q => .ok (.numeric q)
  else if ty = "string" ∨ ty = "guid" then .ok (.str v.text)
  else if ty = "gdate" then
    match findChild v "gdate" with
    | none => .error .attributeError
    | some g =>
      match g.text with
      | none => .error (.typeError "parser must be a string")
      | some tx => .ok (.date (parseDate tx))
  else if ty = "timespec" then
    match findChild v tsDateTag with
    | none => .error .attributeError
    | some g =>
      match g.text with
      | none => .error (.typeError "parser must be a string")
      | some tx => .ok (.date (parseDate tx))
  else if ty = "frame" then
    match slotsContainer v with
    | .error err => .error err
    | .ok m => .ok (.frame m)
  else if ty = "list" then
    match valuesLoop v.children with
    | .error err => .error err
    | .ok ls => .ok (.list ls)
  else .error (.runtimeError ("Unknown slot type " ++ ty))
termination_by (sizeOf v, 1)
decreasing_by
  · exact Prod.Lex.right _ (by omega)
  · exact Prod.Lex.left _ _ (sizeOf_children_lt v)

def valuesLoop : List XElem → Except PyError (List SlotDict)
  | [] => .ok []
  | c :: cs =>
    if c.tag = slotValueTag then
      match slotsContainer c with
      | .error err => .error err
      | .ok m =>
        match valuesLoop cs with
        | .error err => .error err
        | .ok ms => .ok (m :: ms)
    else valuesLoop cs
termination_by cs => (sizeOf cs, 3)
decreasing_by
  · apply Prod.Lex.left
    have h2 : sizeOf (c :: cs) = 1 + sizeOf c + sizeOf cs := by simp
    omega
  · apply Prod.Lex.left
    have h2 : sizeOf (c :: cs) = 1 + sizeOf c + sizeOf cs := by simp
    omega
  · apply Prod.Lex.left
    have h2 : sizeOf (c :: cs) = 1 + sizeOf c + sizeOf cs := by simp
    omega

end

/-- `_slots_from_tree`: an absent container decodes to the empty dict. -/
def slotsFromTree : Option XElem → Except PyError SlotDict
  | none => .ok []
  | some t => slotsContainer t

end Gnucash

namespace Gnucash

/-- Dispatch on an unrecognized declared type lands in the final else branch:
the RuntimeError of `_slots_from_tree`. -/
theorem slotValueDecode_unknown (v : XElem) (ty : String)
    (hty : attrGet v "type" "string" = ty) (hunk : ty ∉ slotTypes) :
    slotValueDecode v = .error (.runtimeError ("Unknown slot type " ++ ty)) := by
  simp only [slotTypes, List.mem_cons, List.not_mem_nil, or_false] at hunk
  push_neg at hunk
  obtain ⟨h1, h2, h3, h4, h5, h6, h7, h8, h9⟩ := hunk
  rw [slotValueDecode, hty]
  simp [h1, h2, h3, h4, h5, h6, h7, h8, h9]

theorem slotsLoop_error_of_mem (e v : XElem) (ty : String)
    (htag : e.tag = "slot") (hv : findChild e slotValueTag = some v)
    (hty : attrGet v "type" "string" = ty) (hunk : ty ∉ slotTypes) :
    ∀ es acc, e ∈ es → ∃ err, slotsLoop es acc = .error err := by
  intro es
  induction es with
  | nil =>
    intro acc h
    simp at h
  | cons x xs ih =>
    intro acc hmem
    rw [slotsLoop]
    rcases List.mem_cons.mp hmem with heq | hmem'
    · subst heq
      rw [if_pos htag]
      split
      · exact ⟨_, rfl⟩
      · split
        · exact ⟨_, rfl⟩
        · rename_i v' hv'
          rw [hv] at hv'
          cases hv'
          rw [slotValueDecode_unknown v ty hty hunk]
          exact ⟨_, rfl⟩
    · by_cases hx : x.tag = "slot"
      · rw [if_pos hx]
        split
        · exact ⟨_, rfl⟩
        · split
          · exact ⟨_, rfl⟩
          · split
            · exact ⟨_, rfl⟩
            · exact ih _ hmem'
      · rw [if_neg hx]
        exact ih _ hmem'

unseal Rat.mul Rat.add Rat.inv Rat.sub in
/-- C6: decoding a slot container that holds a slot whose value element
declares a type attribute outside the recognized set (integer, double,
numeric, string, guid, gdate, timespec, frame, list) fails — it never
returns a dict (no silent drop, no null stand-in) — and, for the container
holding that slot, the failure is exactly the UnknownSlotType RuntimeError. -/
theorem c6_unknown_slot_type (t e v kelt : XElem) (ty : String)
    (hmem : e ∈ t.children) (htag : e.tag = "slot")
    (hk : findChild e slotKeyTag = some kelt)
    (hv : findChild e slotValueTag = some v)
    (hty : attrGet v "type" "string" = ty)
    (hunk : ty ∉ slotTypes) :
    (∃ err, slotsContainer t = .error err) ∧
    (∀ (tg : String) (attrs : List (String × String)) (tx : Option String),
      slotsFromTree (some (XElem.mk tg attrs tx [e])) =
        .error (.runtimeError ("Unknown slot type " ++ ty))) := by
  constructor
  · rw [slotsContainer]
    exact slotsLoop_error_of_mem e v ty htag hv hty hunk t.children [] hmem
  · intro tg attrs tx
    show slotsContainer (XElem.mk tg attrs tx [e]) = _
    rw [slotsContainer]
    show slotsLoop [e] [] = _
    rw [slotsLoop, if_pos htag]
    split
    · rename_i hcontra
      rw [hk] at hcontra
      exact Option.noConfusion hcontra
    · split
      · rename_i hcontra
        rw [hv] at hcontra
        exact Option.noConfusion hcontra
      · rename_i v' hv'
        rw [hv] at hv'
        cases hv'
        rw [slotValueDecode_unknown v ty hty hunk]

unseal Rat.mul Rat.add Rat.inv Rat.sub in
theorem c6_unknown_slot_type_witness :
    (XElem.mk "slot" [] none
        [XElem.mk slotKeyTag [] (some "k") [],
         XElem.mk slotValueTag [("type", "unicorn")] none []]) ∈
      (XElem.mk "slots" [] none
        [XElem.mk "slot" [] none
          [XElem.mk slotKeyTag [] (some "k") [],
           XElem.mk slotValueTag [("type", "unicorn")] none []]]).children ∧
    slotsFromTree (some (XElem.mk "slots" [] none
      [XElem.mk "slot" [] none
        [XElem.mk slotKeyTag [] (some "k") [],
         XElem.mk slotValueTag [("type", "unicorn")] none []]])) =
      .error (.runtimeError ("Unknown slot type " ++ "unicorn")) :=
  ⟨List.mem_singleton.mpr rfl,
   (c6_unknown_slot_type
      (XElem.mk "slots" [] none
        [XElem.mk "slot" [] none
          [XElem.mk slotKeyTag [] (some "k") [],
           XElem.mk slotValueTag [("type", "unicorn")] none []]])
      (XElem.mk "slot" [] none
        [XElem.mk slotKeyTag [] (some "k") [],
         XElem.mk slotValueTag [("type", "unicorn")] none []])
      (XElem.mk slotValueTag [("type", "unicorn")] none [])
      (XElem.mk slotKeyTag [] (some "k") [])
      "unicorn" (List.mem_singleton.mpr rfl) rfl rfl rfl rfl (by decide)).2
     "slots" [] none⟩

end Gnucash

namespace Gnucash

/-! ## The book decoder (_book_from_tree and helpers)

Element structures carry exactly the texts each decode function reads.
Children whose `.text` the source reads unconditionally (so that their
absence is an `AttributeError` on `None`, not a handled case) appear as
plain fields; children the source checks for `None` appear as `Option`
fields, as do the ones read only conditionally. -/

theorem bind_ok {α β : Type} (a : α) (f : α → Except PyError β) :
    Except.bind (Except.ok a) f = f a := rfl

theorem bind_error {α β : Type} (e : PyError) (f : α → Except PyError β) :
    Except.bind (Except.error e) f = Except.error e := rfl

/-- Reading an attribute (such as `.text`) off the result of a `find` that
returned `None` raises AttributeError. -/
def getOrAttrError {α : Type} : Option α → Except PyError α
  | none => .error .attributeError
  | some a => .ok a

/-- Python `dict.setdefault`: return the existing entry, else insert the
given default and return it.  (The default argument is evaluated by the
caller before the call, as everywhere in Python.) -/
def dictSetdefault {α β : Type} [BEq α] (d : List (α × β)) (k : α) (v : β) :
    β × List (α × β) :=
  match dictLookup d k with
  | some old => (old, d)
  | none => (v, d ++ [(k, v)])

/-- Python dict subscript `d[k]` as used in expressions: the value when the
key is present, KeyError otherwise. -/
def getOrKeyError {α : Type} : Option α → Except PyError α
  | none => .error .keyError
  | some a => .ok a

/-- A root commodity declaration element: cmdty:space and cmdty:id are
required (their text is read unconditionally), cmdty:name and cmdty:xcode
sit inside try/except AttributeError in the source. -/
structure CommodityElt where
  space : String
  id : String
  name : Option String
  xcode : Option String

/-- An instance of class Commodity.  Identity is (space, symbol).  `name` is
either a string or a raw element (`_iterparse._add_commodity` assigns the
element itself rather than its text); both shapes occur in the source. -/
structure PCommodity where
  space : String
  symbol : String
  name : Option (String ⊕ XElem)
  xcode : Option String

/-- The parameters of `Commodity.__init__(self, space, symbol, name=None,
xcode=None)`. -/
def commodityParams : List String := ["space", "symbol", "name", "xcode"]

/-- A keyword call of `Commodity.__init__`: a keyword absent from the
parameter list raises TypeError (unexpected keyword argument); the two
parameters without defaults must be bound. -/
def commodityInitKw (kwargs : List (String × String)) : Except PyError PCommodity :=
  match kwargs.find? (fun kv => !(commodityParams.contains kv.1)) with
  | some kv => .error (.typeError ("unexpected keyword argument " ++ kv.1))
  | none =>
    match dictLookup kwargs "space", dictLookup kwargs "symbol" with
    | some sp, some sy =>
      .ok ⟨sp, sy, (dictLookup kwargs "name").map Sum.inl, dictLookup kwargs "xcode"⟩
    | _, _ => .error (.typeError "missing required positional argument")

/-- `_commodity_from_tree`: read cmdty:space and cmdty:id, then construct
`Commodity(space=space, id=id)` — a keyword call using the keyword `id`,
which `Commodity.__init__` does not accept — then optionally set name and
xcode inside try/except AttributeError. -/
def commodityFromTree (tree : CommodityElt) : Except PyError PCommodity :=
  Except.bind (commodityInitKw [("space", tree.space), ("id", tree.id)]) (fun c =>
    let c1 := match tree.name with
      | some n => { c with name := some (Sum.inl n) }
      | none => c
    let c2 := match tree.xcode with
      | some x => { c1 with xcode := some x }
      | none => c1
    .ok c2)

abbrev CommodityDict := List ((String × String) × PCommodity)

/-- A price element: all seven texts are read unconditionally. -/
structure PriceElt where
  guid : String
  value : String
  date : String
  currencySpace : String
  currencyId : String
  commoditySpace : String
  commodityId : String

structure PPrice where
  guid : String
  commodity : PCommodity
  currency : PCommodity
  date : PyDate
  value : ℚ

/-- `_price_from_tree`: guid, value (via `_parse_number`), date, then the
currency through `commoditydict.setdefault((space, id), Commodity(space=…,
id=…))` — whose default argument is evaluated eagerly — and the priced
commodity through the plain subscript `commoditydict[(space, id)]`. -/
def priceFromTree (commoditydict : CommodityDict) (tree : PriceElt) :
    Except PyError (PPrice × CommodityDict) :=
  Except.bind (parseNumber tree.value) (fun value =>
    let date := parseDate tree.date
    Except.bind (commodityInitKw
        [("space", tree.currencySpace), ("id", tree.currencyId)]) (fun dflt =>
      let sd := dictSetdefault commoditydict (tree.currencySpace, tree.currencyId) dflt
      Except.bind (getOrKeyError
          (dictLookup sd.2 (tree.commoditySpace, tree.commodityId))) (fun commodity =>
        .ok (⟨tree.guid, commodity, sd.1, date, value⟩, sd.2))))

/-- An account element for `_account_from_tree`: name, id and type are
required; description is checked for None; parent, the commodity reference
and commodity-scu are only read when the type is not ROOT (absence then is
an AttributeError). -/
structure AccountElt where
  name : String
  guid : String
  actype : String
  description : Option String
  slots : Option XElem
  parent : Option String
  cmdtySpace : Option String
  cmdtyId : Option String
  scu : Option String

structure PSplit where
  guid : String
  memo : Option String
  reconciled_state : String
  reconcile_date : Option PyDate
  value : ℚ
  quantity : ℚ
  account : String
  transaction : String
  action : Option String
  slots : SlotDict

/-- An instance of class Account.  Object references (parent, split target)
are tracked by guid into the account store. -/
structure PAccount where
  name : String
  guid : String
  actype : String
  description : Option String
  parent : Option String
  children : List String
  commodity : Option PCommodity
  commodity_scu : Option String
  splits : List PSplit
  slots : SlotDict

abbrev Store := List (String × PAccount)

/-- `_account_from_tree`: pass 1 of the account tree builder.  Returns the
recorded (unresolved) parent guid together with the constructed account.
For a non-ROOT account the owning commodity is resolved by the plain
subscript `commoditydict[(space, name)]`, a KeyError when absent. -/
def accountFromTree (tree : AccountElt) (commoditydict : CommodityDict) :
    Except PyError (Option String × PAccount) :=
  Except.bind (slotsFromTree tree.slots) (fun slots =>
    if tree.actype = "ROOT" then
      .ok (none, ⟨tree.name, tree.guid, tree.actype, tree.description, none, [],
        none, none, [], slots⟩)
    else
      Except.bind (getOrAttrError tree.parent) (fun parentGuid =>
        Except.bind (getOrAttrError tree.cmdtySpace) (fun cspace =>
          Except.bind (getOrAttrError tree.cmdtyId) (fun cname =>
            Except.bind (getOrAttrError tree.scu) (fun scu =>
              Except.bind (getOrKeyError
                  (dictLookup commoditydict (cspace, cname))) (fun commodity =>
                .ok (some parentGuid, ⟨tree.name, tree.guid, tree.actype,
                  tree.description, none, [], some commodity, some scu, [], slots⟩)))))))

structure SplitElt where
  guid : String
  memo : Option String
  reconciled_state : String
  reconcile_date : Option String
  value : String
  quantity : String
  account : String
  slots : Option XElem
  action : Option String

structure TransactionElt where
  guid : String
  currencySpace : String
  currencyId : String
  datePosted : String
  dateEntered : String
  description : String
  num : Option String
  slots : Option XElem
  splits : List SplitElt

structure PTransaction where
  guid : String
  currency : PCommodity
  date : PyDate
  date_entered : PyDate
  description : String
  num : Option String
  splits : List PSplit
  slots : SlotDict

/-- `_split_from_tree`: decode one split, resolve its target account
(KeyError when absent), and append the split to that account's split list —
the mutation of the shared Account object, modelled as a store update. -/
def splitFromTree (tree : SplitElt) (accountdict : Store) (transactionGuid : String) :
    Except PyError (PSplit × Store) :=
  Except.bind (parseNumber tree.value) (fun value =>
    Except.bind (parseNumber tree.quantity) (fun quantity =>
      Except.bind (getOrKeyError (dictLookup accountdict tree.account)) (fun acct =>
        Except.bind (slotsFromTree tree.slots) (fun slots =>
          let split : PSplit := ⟨tree.guid, tree.memo, tree.reconciled_state,
            tree.reconcile_date.map parseDate, value, quantity, tree.account,
            transactionGuid, tree.action, slots⟩
          .ok (split, dictInsert accountdict tree.account
            { acct with splits := acct.splits ++ [split] })))))

def splitsLoop (transactionGuid : String) :
    List SplitElt → Store → Except PyError (List PSplit × Store)
  | [], store => .ok ([], store)
  | st :: sts, store =>
    Except.bind (splitFromTree st store transactionGuid) (fun r =>
      Except.bind (splitsLoop transactionGuid sts r.2) (fun rest =>
        .ok (r.1 :: rest.1, rest.2)))

/-- `_transaction_from_tree`: the currency is resolved by the plain
subscript `commoditydict[(space, name)]`, then dates, description, optional
num, slots, and the child splits in document order. -/
def transactionFromTree (tree : TransactionElt) (accountdict : Store)
    (commoditydict : CommodityDict) : Except PyError (PTransaction × Store) :=
  Except.bind (getOrKeyError
      (dictLookup commoditydict (tree.currencySpace, tree.currencyId))) (fun currency =>
    let date := parseDate tree.datePosted
    let dateEntered := parseDate tree.dateEntered
    Except.bind (slotsFromTree tree.slots) (fun slots =>
      Except.bind (splitsLoop tree.guid tree.splits accountdict) (fun r =>
        .ok (⟨tree.guid, currency, date, dateEntered, tree.description, tree.num,
          r.1, slots⟩, r.2))))

/-- A book element: book:id is required; the pricedb element is checked for
None; commodities, accounts and transactions are `findall` results. -/
structure BookElt where
  guid : String
  commodities : List CommodityElt
  pricedb : Option (List PriceElt)
  accounts : List AccountElt
  transactions : List TransactionElt
  slots : Option XElem

/-- The decoded Book: object references are guids into `store`, which plays
the role of the shared mutable Account objects. -/
structure PBook where
  guid : String
  prices : List PPrice
  transactions : List PTransaction
  rootAccount : Option String
  accounts : List String
  commodities : List PCommodity
  slots : SlotDict
  store : Store

def commoditiesLoop : List CommodityElt → Except PyError (List PCommodity)
  | [] => .ok []
  | c :: cs =>
    Except.bind (commodityFromTree c) (fun pc =>
      Except.bind (commoditiesLoop cs) (fun rest => .ok (pc :: rest)))

/-- The dict comprehension `{(c.space, c.symbol): c for c in commodities}`. -/
def buildCommodityDict (cs : List PCommodity) : CommodityDict :=
  cs.foldl (fun d c => dictInsert d (c.space, c.symbol) c) []

def pricesLoop : List PriceElt → CommodityDict →
    Except PyError (List PPrice × CommodityDict)
  | [], d => .ok ([], d)
  | p :: ps, d =>
    Except.bind (priceFromTree d p) (fun r =>
      Except.bind (pricesLoop ps r.2) (fun rest => .ok (r.1 :: rest.1, rest.2)))

/-- Pass 1 over gnc:account children: build the account store, the recorded
parent-guid dict, and remember the (last) ROOT account. -/
def accountsPass1 (cd : CommodityDict) : List AccountElt →
    Store → List (String × Option String) → Option String →
    Except PyError (Store × List (String × Option String) × Option String)
  | [], store, parentdict, root => .ok (store, parentdict, root)
  | a :: rest, store, parentdict, root =>
    Except.bind (accountFromTree a cd) (fun r =>
      accountsPass1 cd rest (dictInsert store r.2.guid r.2)
        (dictInsert parentdict r.2.guid r.1)
        (if r.2.actype = "ROOT" then some r.2.guid else root))

/-- Pass 2 (the linking pass, lines 552-557): iterate a snapshot of the
store's guids; for every account with no parent link whose type is not ROOT,
look up the recorded parent id in the store — a plain subscript, KeyError
when it matches no decoded account — set the back-link, and append the child
to the parent's child list and to the book's account list. -/
def linkLoop (parentdict : List (String × Option String)) :
    List String → Store → List String → Except PyError (Store × List String)
  | [], store, acc => .ok (store, acc)
  | x :: xs, store, acc =>
    Except.bind (getOrKeyError (dictLookup store x)) (fun a =>
      if a.parent = none ∧ a.actype ≠ "ROOT" then
        Except.bind (getOrKeyError (dictLookup parentdict x)) (fun pg =>
          Except.bind (getOrKeyError pg) (fun pgid =>
            Except.bind (getOrKeyError (dictLookup store pgid)) (fun _ =>
              Except.bind (getOrKeyError
                  (dictLookup (dictInsert store x { a with parent := some pgid }) pgid))
                (fun pa2 =>
                  linkLoop parentdict xs
                    (dictInsert (dictInsert store x { a with parent := some pgid }) pgid
                      { pa2 with children := pa2.children ++ [x] })
                    (acc ++ [x])))))
      else linkLoop parentdict xs store acc)

def linkPass (store : Store) (parentdict : List (String × Option String)) :
    Except PyError (Store × List String) :=
  linkLoop parentdict (store.map Prod.fst) store []

def transactionsLoop (cd : CommodityDict) : List TransactionElt → Store →
    Except PyError (List PTransaction × Store)
  | [], store => .ok ([], store)
  | t :: ts, store =>
    Except.bind (transactionFromTree t store cd) (fun r =>
      Except.bind (transactionsLoop cd ts r.2) (fun rest =>
        .ok (r.1 :: rest.1, rest.2)))

/-- `_book_from_tree`: guid, root commodities, the commodity identity dict,
the price database (threading the dict, which `setdefault` may extend),
accounts in two passes, transactions, book slots; then assemble the Book. -/
def bookFromTree (tree : BookElt) : Except PyError PBook :=
  Except.bind (commoditiesLoop tree.commodities) (fun commodities =>
    let commoditydict := buildCommodityDict commodities
    Except.bind (match tree.pricedb with
      | none => .ok ([], commoditydict)
      | some pl => pricesLoop pl commoditydict) (fun pr =>
      Except.bind (accountsPass1 pr.2 tree.accounts [] [] none) (fun p1 =>
        Except.bind (linkPass p1.1 p1.2.1) (fun lk =>
          Except.bind (transactionsLoop pr.2 tree.transactions lk.1) (fun tr =>
            Except.bind (slotsFromTree tree.slots) (fun slots =>
              .ok ⟨tree.guid, pr.1, tr.1, p1.2.2, lk.2, commodities, slots, tr.2⟩))))))

end Gnucash

namespace Gnucash

/-! ## Dictionary lemmas -/

theorem dictLookup_insert_self {α β : Type} [BEq α] [LawfulBEq α]
    (d : List (α × β)) (k : α) (v : β) :
    dictLookup (dictInsert d k v) k = some v := by
  induction d with
  | nil => simp [dictInsert, dictLookup, List.find?]
  | cons kv rest ih =>
    by_cases h : kv.1 == k
    · simp [dictInsert, h, dictLookup, List.find?]
    · simp only [dictInsert, h, Bool.false_eq_true, if_false]
      simp only [dictLookup, List.find?, h] at ih ⊢
      exact ih

theorem dictLookup_insert_ne {α β : Type} [BEq α] [LawfulBEq α]
    (d : List (α × β)) (k k' : α) (v : β) (h : ¬k' = k) :
    dictLookup (dictInsert d k' v) k = dictLookup d k := by
  have hb : (k' == k) = false := beq_eq_false_iff_ne.mpr h
  induction d with
  | nil => simp [dictInsert, dictLookup, List.find?, hb]
  | cons kv rest ih =>
    by_cases hh : kv.1 == k'
    · simp only [dictInsert, hh, if_true]
      have hkvk : (kv.1 == k) = false := by
        rw [eq_of_beq hh]
        exact hb
      simp [dictLookup, List.find?, hb, hkvk]
    · simp only [dictInsert, hh, Bool.false_eq_true, if_false]
      simp only [dictLookup, List.find?] at ih ⊢
      cases hkv : kv.1 == k
      · simpa using ih
      · simp

theorem dictLookup_some_mem_keys {α β : Type} [BEq α] [LawfulBEq α]
    (d : List (α × β)) (k : α) (v : β) (h : dictLookup d k = some v) :
    k ∈ d.map Prod.fst := by
  induction d with
  | nil => simp [dictLookup, List.find?] at h
  | cons kv rest ih =>
    simp only [dictLookup, List.find?] at h
    cases hkv : kv.1 == k
    · rw [hkv] at h
      simp only [List.map_cons, List.mem_cons]
      exact Or.inr (ih h)
    · simp only [List.map_cons, List.mem_cons]
      exact Or.inl (eq_of_beq hkv).symm

end Gnucash

namespace Gnucash

/-! ## The Commodity keyword bug and its consequences (C9, C2, C3) -/

theorem commodityInitKw_id (sp idv : String) :
    commodityInitKw [("space", sp), ("id", idv)] =
      .error (.typeError ("unexpected keyword argument " ++ "id")) := rfl

theorem commodityFromTree_typeerror (t : CommodityElt) :
    commodityFromTree t = .error (.typeError ("unexpected keyword argument " ++ "id")) := by
  simp only [commodityFromTree, commodityInitKw_id, bind_error]

theorem commoditiesLoop_error (c : CommodityElt) (cs : List CommodityElt) :
    commoditiesLoop (c :: cs) =
      .error (.typeError ("unexpected keyword argument " ++ "id")) := by
  simp only [commoditiesLoop, commodityFromTree_typeerror, bind_error]

/-- C9: `Commodity.__init__` has parameters (space, symbol, name, xcode) and
no parameter `id`, so the keyword call `Commodity(space=space, id=id)` in
`_commodity_from_tree` raises TypeError for every declaration element;
consequently a book with at least one root commodity declaration cannot be
decoded by `_book_from_tree`, and the lazy registration in
`_price_from_tree` — whose setdefault default is the same keyword call,
evaluated eagerly — fails identically whenever the price value parses. -/
theorem c9_commodity_keyword_id_typeerror (t : CommodityElt) (be : BookElt)
    (d : CommodityDict) (p : PriceElt) (q : ℚ)
    (hne : be.commodities ≠ []) (hval : parseNumber p.value = .ok q) :
    ("id" ∈ commodityParams → False) ∧
    commodityFromTree t = .error (.typeError ("unexpected keyword argument " ++ "id")) ∧
    bookFromTree be = .error (.typeError ("unexpected keyword argument " ++ "id")) ∧
    priceFromTree d p = .error (.typeError ("unexpected keyword argument " ++ "id")) := by
  refine ⟨by decide, commodityFromTree_typeerror t, ?_, ?_⟩
  · cases hbc : be.commodities with
    | nil => exact absurd hbc hne
    | cons c cs =>
      simp only [bookFromTree, hbc, commoditiesLoop_error, bind_error]
  · simp only [priceFromTree, hval, bind_ok, commodityInitKw_id, bind_error]

unseal Rat.mul Rat.add Rat.inv Rat.sub in
theorem c9_commodity_keyword_id_typeerror_witness :
    (⟨"b1", [⟨"ISO4217", "USD", none, none⟩], none, [], [], none⟩ : BookElt).commodities ≠ [] ∧
    parseNumber "7/1" = .ok (7 : ℚ) ∧
    bookFromTree ⟨"b1", [⟨"ISO4217", "USD", none, none⟩], none, [], [], none⟩ =
      .error (.typeError ("unexpected keyword argument " ++ "id")) ∧
    priceFromTree [] ⟨"p1", "7/1", "2024-01-01", "ISO4217", "EUR", "ISO4217", "EUR"⟩ =
      .error (.typeError ("unexpected keyword argument " ++ "id")) :=
  ⟨by simp, by decide,
   (c9_commodity_keyword_id_typeerror ⟨"ISO4217", "USD", none, none⟩
      ⟨"b1", [⟨"ISO4217", "USD", none, none⟩], none, [], [], none⟩
      [] ⟨"p1", "7/1", "2024-01-01", "ISO4217", "EUR", "ISO4217", "EUR"⟩ 7
      (by simp) (by decide)).2.2.1,
   (c9_commodity_keyword_id_typeerror ⟨"ISO4217", "USD", none, none⟩
      ⟨"b1", [⟨"ISO4217", "USD", none, none⟩], none, [], [], none⟩
      [] ⟨"p1", "7/1", "2024-01-01", "ISO4217", "EUR", "ISO4217", "EUR"⟩ 7
      (by simp) (by decide)).2.2.2⟩

unseal Rat.mul Rat.add Rat.inv Rat.sub in
/-- C2: decoding a price whose currency (ISO4217, EUR) was never declared
does not succeed and register a minimal commodity: the setdefault default
`Commodity(space=…, id=…)` is evaluated eagerly and raises TypeError, because
`Commodity.__init__` has no parameter `id`.  (The priced commodity, in turn,
is resolved by the strict subscript `commoditydict[...]`, not a lazy path.) -/
theorem c2_price_lazy_registration_broken :
    priceFromTree [] ⟨"p1", "7/1", "2024-01-01", "ISO4217", "EUR", "ISO4217", "EUR"⟩ =
      .error (.typeError ("unexpected keyword argument " ++ "id")) := by
  have h : parseNumber "7/1" = .ok (7 : ℚ) := by decide
  simp only [priceFromTree, h, bind_ok, commodityInitKw_id, bind_error]

/-- C3: the commodity interning table is unreachable: decoding any book that
declares a commodity fails with TypeError inside `_commodity_from_tree`
before the identity table is built, so no two same-key commodity references
are ever resolved within one decoded book.  Concretely, the book declaring
(ISO4217, USD) with an account referencing that pair fails outright. -/
theorem c3_interning_unreachable :
    bookFromTree ⟨"b1", [⟨"ISO4217", "USD", none, none⟩], none,
      [⟨"Assets", "a1", "BANK", none, none, some "r1", some "ISO4217", some "USD",
        some "100"⟩], [], none⟩ =
      .error (.typeError ("unexpected keyword argument " ++ "id")) := by
  simp only [bookFromTree, commoditiesLoop_error, bind_error]

/-! ## The top-level parse function (C10) -/

/-- The names bound at the top level of gnucashxml.py: the import statements
bind decimal, gzip, parse_date and etree (the try/except import binds only
the name `etree`, whether lxml or the stdlib fallback is used), then the
module defines its version string, six classes and eight functions.  Neither
`lxml` nor `ParseError` is among them (nor are they Python builtins). -/
def moduleNames : List String :=
  ["decimal", "gzip", "parse_date", "etree", "__version__",
   "Book", "Commodity", "Account", "Transaction", "Split", "Price",
   "from_filename", "parse", "_iterparse", "_book_from_tree",
   "_account_from_tree", "_transaction_from_tree", "_split_from_tree",
   "_slots_from_tree", "_parse_number"]

/-- Input to `parse`: what the (never-reached) XML parse would produce. -/
structure ParseInput where
  rootTag : String
  book : Option BookElt

/-- The top-level `parse`: its first statement `tree = lxml.etree.parse(fobj)`
resolves the name `lxml`, raising NameError when it is unbound; only then
would the root tag be checked and `_book_from_tree` be invoked.  (The
`except ParseError` handler also names an unbound name, so even a failing
XML parse would end in NameError.) -/
def parse (doc : ParseInput) : Except PyError PBook :=
  if moduleNames.contains "lxml" = false then .error (.nameError "lxml")
  else if doc.rootTag ≠ "gnc-v2" then
    .error (.valueError "File stream was not a valid GNU Cash v2 XML file")
  else
    match doc.book with
    | none => .error .attributeError
    | some be => bookFromTree be

/-- C10: the module never binds the name `lxml` (the import binds `etree`
only) nor `ParseError`, so `parse` raises NameError before inspecting the
document; it never returns a Book for any input. -/
theorem c10_parse_nameerror (doc : ParseInput) :
    moduleNames.contains "lxml" = false ∧
    moduleNames.contains "ParseError" = false ∧
    parse doc = .error (.nameError "lxml") := by
  refine ⟨by decide, by decide, ?_⟩
  simp only [parse]
  rw [if_pos (by decide)]

end Gnucash

namespace Gnucash

/-! ## The account linking pass and the missing ROOT account (C4) -/

/-- If some guid in the queue denotes a non-ROOT, still-unlinked account
whose recorded parent id matches no store entry, the linking loop ends in
KeyError.  The conditions are stable under the loop's store updates: link
updates only rewrite `parent` of the processed guid and `children` of its
parent, and never create store keys. -/
theorem linkLoop_error (pd : List (String × Option String)) (g pgid : String)
    (hpd : dictLookup pd g = some (some pgid)) :
    ∀ (gl : List String) (store : Store) (acc : List String) (a : PAccount),
      g ∈ gl → dictLookup store g = some a → a.parent = none → a.actype ≠ "ROOT" →
      dictLookup store pgid = none →
      linkLoop pd gl store acc = .error .keyError := by
  intro gl
  induction gl with
  | nil =>
    intro store acc a hmem hga hpar htype hmiss
    simp at hmem
  | cons x xs ih =>
    intro store acc a hmem hga hpar htype hmiss
    simp only [linkLoop]
    cases hx : dictLookup store x with
    | none => rfl
    | some ax =>
      simp only [getOrKeyError, bind_ok]
      by_cases hcond : ax.parent = none ∧ ax.actype ≠ "ROOT"
      · rw [if_pos hcond]
        by_cases hxg : x = g
        · subst hxg
          have hax : ax = a := by
            rw [hx] at hga
            exact Option.some.inj hga
          rw [hpd]
          simp only [getOrKeyError, bind_ok]
          rw [hmiss]
          rfl
        · cases hpdx : dictLookup pd x with
          | none => rfl
          | some pgx =>
            simp only [getOrKeyError, bind_ok]
            cases pgx with
            | none => rfl
            | some pgxid =>
              simp only [getOrKeyError, bind_ok]
              cases hpx : dictLookup store pgxid with
              | none => rfl
              | some px =>
                simp only [getOrKeyError, bind_ok]
                cases hpx2 : dictLookup
                    (dictInsert store x { ax with parent := some pgxid }) pgxid with
                | none => rfl
                | some pa2 =>
                  simp only [getOrKeyError, bind_ok]
                  have hgmem : g ∈ xs := by
                    cases List.mem_cons.mp hmem with
                    | inl h => exact absurd h.symm hxg
                    | inr h => exact h
                  have hxne : ¬x = g := hxg
                  have hpgidx : ¬x = pgid := by
                    intro he
                    rw [he, hmiss] at hx
                    exact Option.noConfusion hx
                  have hpgidpgx : ¬pgxid = pgid := by
                    intro he
                    rw [he, hmiss] at hpx
                    exact Option.noConfusion hpx
                  by_cases hpgxg : pgxid = g
                  · -- the processed account's parent is our g: its record gains a child
                    subst hpgxg
                    have hs1g : dictLookup
                        (dictInsert store x { ax with parent := some pgxid }) pgxid =
                        some a := by
                      rw [dictLookup_insert_ne _ _ _ _ (fun he => hxne he)]
                      exact hga
                    have hpa2a : pa2 = a := by
                      rw [hs1g] at hpx2
                      exact (Option.some.inj hpx2).symm
                    apply ih _ _ { pa2 with children := pa2.children ++ [x] } hgmem
                    · exact dictLookup_insert_self _ _ _
                    · simp [hpa2a, hpar]
                    · simp [hpa2a]
                      exact htype
                    · rw [dictLookup_insert_ne _ _ _ _ hpgidpgx,
                        dictLookup_insert_ne _ _ _ _ hpgidx]
                      exact hmiss
                  · apply ih _ _ a hgmem
                    · rw [dictLookup_insert_ne _ _ _ _ hpgxg,
                        dictLookup_insert_ne _ _ _ _ hxne]
                      exact hga
                    · exact hpar
                    · exact htype
                    · rw [dictLookup_insert_ne _ _ _ _ hpgidpgx,
                        dictLookup_insert_ne _ _ _ _ hpgidx]
                      exact hmiss
      · rw [if_neg hcond]
        have hxg : ¬x = g := by
          intro he
          subst he
          have hax : ax = a := by
            rw [hx] at hga
            exact Option.some.inj hga
          exact hcond ⟨by rw [hax]; exact hpar, by rw [hax]; exact htype⟩
        have hgmem : g ∈ xs := by
          cases List.mem_cons.mp hmem with
          | inl h => exact absurd h.symm hxg
          | inr h => exact h
        exact ih store acc a hgmem hga hpar htype hmiss

end Gnucash

namespace Gnucash

theorem accountFromTree_actype (tree : AccountElt) (cd : CommodityDict)
    (pg : Option String) (acc : PAccount)
    (h : accountFromTree tree cd = .ok (pg, acc)) : acc.actype = tree.actype := by
  simp only [accountFromTree] at h
  cases hs : slotsFromTree tree.slots with
  | error e =>
    rw [hs, bind_error] at h
    exact Except.noConfusion h
  | ok slots =>
    rw [hs, bind_ok] at h
    by_cases hr : tree.actype = "ROOT"
    · rw [if_pos hr] at h
      simp only [Except.ok.injEq, Prod.mk.injEq] at h
      rw [← h.2]
    · rw [if_neg hr] at h
      cases h1 : tree.parent with
      | none => rw [h1] at h; exact Except.noConfusion h
      | some v1 =>
        rw [h1] at h
        simp only [getOrAttrError, bind_ok] at h
        cases h2 : tree.cmdtySpace with
        | none => rw [h2] at h; exact Except.noConfusion h
        | some v2 =>
          rw [h2] at h
          simp only [getOrAttrError, bind_ok] at h
          cases h3 : tree.cmdtyId with
          | none => rw [h3] at h; exact Except.noConfusion h
          | some v3 =>
            rw [h3] at h
            simp only [getOrAttrError, bind_ok] at h
            cases h4 : tree.scu with
            | none => rw [h4] at h; exact Except.noConfusion h
            | some v4 =>
              rw [h4] at h
              simp only [getOrAttrError, bind_ok] at h
              cases h5 : dictLookup cd (v2, v3) with
              | none => rw [h5] at h; exact Except.noConfusion h
              | some cmdty =>
                rw [h5] at h
                simp only [getOrKeyError, bind_ok, Except.ok.injEq, Prod.mk.injEq] at h
                rw [← h.2]

theorem accountsPass1_no_root (cd : CommodityDict) :
    ∀ (elts : List AccountElt) (store : Store) (pd : List (String × Option String))
      (root : Option String) (out : Store × List (String × Option String) × Option String),
      (∀ e ∈ elts, e.actype ≠ "ROOT") →
      accountsPass1 cd elts store pd root = .ok out → out.2.2 = root := by
  intro elts
  induction elts with
  | nil =>
    intro store pd root out hne h
    simp only [accountsPass1, Except.ok.injEq] at h
    rw [← h]
  | cons e rest ih =>
    intro store pd root out hne h
    simp only [accountsPass1] at h
    cases hd : accountFromTree e cd with
    | error err =>
      rw [hd, bind_error] at h
      exact Except.noConfusion h
    | ok r =>
      rw [hd, bind_ok] at h
      have hacc : r.2.actype = e.actype :=
        accountFromTree_actype e cd r.1 r.2 (by rw [hd])
      have hcond : (if r.2.actype = "ROOT" then some r.2.guid else root) = root := by
        rw [if_neg]
        rw [hacc]
        exact hne e (List.mem_cons_self e rest)
      rw [hcond] at h
      exact ih _ _ _ _ (fun x hx => hne x (List.mem_cons_of_mem _ hx)) h

/-- C4, counterexample: a document with no accounts at all decodes to a
Book — `root_account` is simply `None` — rather than failing with
MissingRootAccount as the claim requires. -/
theorem c4_counterexample_missing_root :
    bookFromTree ⟨"b1", [], none, [], [], none⟩ =
      .ok ⟨"b1", [], [], none, [], [], [], []⟩ := rfl

/-- C4 (amended): in the linking pass an unmatched parent id raises the dict
subscript's KeyError (the code defines no UnresolvedAccountReference class),
so no Book is returned; but there is no MissingRootAccount check at all —
when no account of type ROOT is decoded, `_book_from_tree` returns a Book
whose root_account is None. -/
theorem c4_linking_keyerror_and_root_none
    (store : Store) (pd : List (String × Option String)) (g pgid : String)
    (a : PAccount) (be : BookElt) (bk : PBook)
    (hga : dictLookup store g = some a) (hpar : a.parent = none)
    (hroot : a.actype ≠ "ROOT") (hpd : dictLookup pd g = some (some pgid))
    (hmiss : dictLookup store pgid = none)
    (hnone : ∀ ae ∈ be.accounts, ae.actype ≠ "ROOT")
    (hok : bookFromTree be = .ok bk) :
    linkPass store pd = .error .keyError ∧ bk.rootAccount = none := by
  constructor
  · have hmem : g ∈ store.map Prod.fst := dictLookup_some_mem_keys store g a hga
    simp only [linkPass]
    exact linkLoop_error pd g pgid hpd (store.map Prod.fst) store [] a hmem hga hpar
      hroot hmiss
  · simp only [bookFromTree] at hok
    cases hc : commoditiesLoop be.commodities with
    | error e => rw [hc, bind_error] at hok; exact Except.noConfusion hok
    | ok commodities =>
      rw [hc, bind_ok] at hok
      cases hpr : (match be.pricedb with
        | none => Except.ok (([] : List PPrice), buildCommodityDict commodities)
        | some pl => pricesLoop pl (buildCommodityDict commodities)) with
      | error e => rw [hpr, bind_error] at hok; exact Except.noConfusion hok
      | ok pr =>
        rw [hpr, bind_ok] at hok
        cases hp1 : accountsPass1 pr.2 be.accounts [] [] none with
        | error e => rw [hp1, bind_error] at hok; exact Except.noConfusion hok
        | ok p1 =>
          rw [hp1, bind_ok] at hok
          have hrootnone : p1.2.2 = none :=
            accountsPass1_no_root pr.2 be.accounts [] [] none p1 hnone hp1
          cases hlk : linkPass p1.1 p1.2.1 with
          | error e => rw [hlk, bind_error] at hok; exact Except.noConfusion hok
          | ok lk =>
            rw [hlk, bind_ok] at hok
            cases htr : transactionsLoop pr.2 be.transactions lk.1 with
            | error e => rw [htr, bind_error] at hok; exact Except.noConfusion hok
            | ok tr =>
              rw [htr, bind_ok] at hok
              cases hsl : slotsFromTree be.slots with
              | error e => rw [hsl, bind_error] at hok; exact Except.noConfusion hok
              | ok slots =>
                rw [hsl, bind_ok] at hok
                simp only [Except.ok.injEq] at hok
                rw [← hok]
                exact hrootnone

theorem c4_linking_keyerror_and_root_none_witness :
    dictLookup [("a1", (⟨"Assets", "a1", "BANK", none, none, [], none, none, [], []⟩ :
        PAccount))] "a1" =
      some ⟨"Assets", "a1", "BANK", none, none, [], none, none, [], []⟩ ∧
    linkPass [("a1", ⟨"Assets", "a1", "BANK", none, none, [], none, none, [], []⟩)]
        [("a1", some "zz")] =
      .error .keyError :=
  ⟨rfl,
   (c4_linking_keyerror_and_root_none
      [("a1", ⟨"Assets", "a1", "BANK", none, none, [], none, none, [], []⟩)]
      [("a1", some "zz")] "a1" "zz"
      ⟨"Assets", "a1", "BANK", none, none, [], none, none, [], []⟩
      ⟨"b1", [], none, [], [], none⟩ ⟨"b1", [], [], none, [], [], [], []⟩
      rfl rfl (by simp) rfl rfl (by simp) rfl).1⟩

end Gnucash


namespace Gnucash

/-! ## Account.walk (C7)

The account tree as `walk` traverses it.  Each node records the identity of
its Python children-list object (`childrenRef`, a reference into the
caller's heap of list objects) so that the freshness of the snapshots that
`walk` yields is expressible: a snapshot gets a reference from the
allocation counter, never one of the tree's own list references. -/

inductive AccountT where
  | node (guid : String) (childrenRef : Nat) (children : List AccountT)
      (splits : List String)

def AccountT.guid : AccountT → String
  | .node g _ _ _ => g

def AccountT.childrenRef : AccountT → Nat
  | .node _ r _ _ => r

def AccountT.children : AccountT → List AccountT
  | .node _ _ cs _ => cs

def AccountT.splits : AccountT → List String
  | .node _ _ _ sp => sp

theorem sizeOf_list_append {α : Type} [SizeOf α] (l1 l2 : List α) :
    sizeOf (l1 ++ l2) + 1 = sizeOf l1 + sizeOf l2 := by
  induction l1 with
  | nil =>
    simp only [List.nil_append, List.nil.sizeOf_spec]
    omega
  | cons x xs ih =>
    simp only [List.cons_append, List.cons.sizeOf_spec]
    omega

theorem sizeOf_acct_children_lt (a : AccountT) : sizeOf a.children < sizeOf a := by
  cases a with
  | node g r cs sp =>
    have h := AccountT.node.sizeOf_spec g r cs sp
    simp only [AccountT.children, h]
    omega

/-- The queue strictly shrinks in total size at each step of `walk`. -/
theorem queue_step_lt (x : AccountT) (xs : List AccountT) :
    sizeOf (xs ++ x.children) < sizeOf (x :: xs) := by
  have h1 := sizeOf_list_append xs x.children
  have h2 := sizeOf_acct_children_lt x
  simp only [List.cons.sizeOf_spec]
  omega

mutual

/-- All children-list references occurring in a tree. -/
def AccountT.refs : AccountT → List Nat
  | .node _ r cs _ => r :: refsList cs
termination_by a => sizeOf a
decreasing_by
  simp only [AccountT.node.sizeOf_spec]
  omega

def refsList : List AccountT → List Nat
  | [] => []
  | c :: cs => AccountT.refs c ++ refsList cs
termination_by l => sizeOf l
decreasing_by
  · simp only [List.cons.sizeOf_spec]
    omega
  · simp only [List.cons.sizeOf_spec]
    omega

end

/-- One yield of the generator: the account, the reference and contents of
the freshly allocated `list(acc.children)` snapshot, and the account's
splits. -/
structure WalkEntry where
  acct : AccountT
  snapRef : Nat
  snapChildren : List AccountT
  splits : List String

/-- `Account.walk` as the queue-based generator of the source: pop the
queue's head, allocate a fresh snapshot holding a copy of the head's
children, yield (account, snapshot, splits), and extend the queue with the
snapshot's contents.  The second component is the allocation counter. -/
def walkAux : List AccountT → Nat → List WalkEntry × Nat
  | [], n => ([], n)
  | a :: rest, n =>
    let r := walkAux (rest ++ a.children) (n + 1)
    (⟨a, n, a.children, a.splits⟩ :: r.1, r.2)
termination_by q _ => sizeOf q
decreasing_by
  exact queue_step_lt _ _

/-- The traversal order of `walk` (accounts only). -/
def walkO : List AccountT → List AccountT
  | [] => []
  | a :: rest => a :: walkO (rest ++ a.children)
termination_by q => sizeOf q
decreasing_by
  exact queue_step_lt _ _

def nextLevel (q : List AccountT) : List AccountT := q.flatMap AccountT.children

theorem nextLevel_nil : nextLevel [] = [] := rfl

theorem nextLevel_cons (a : AccountT) (rest : List AccountT) :
    nextLevel (a :: rest) = a.children ++ nextLevel rest := rfl

theorem sizeOf_nextLevel (q : List AccountT) :
    sizeOf (nextLevel q) + q.length ≤ sizeOf q := by
  induction q with
  | nil =>
    rw [nextLevel_nil]
    simp
  | cons a rest ih =>
    rw [nextLevel_cons]
    have h1 := sizeOf_list_append a.children (nextLevel rest)
    have h2 := sizeOf_acct_children_lt a
    simp only [List.cons.sizeOf_spec, List.length_cons]
    omega

theorem next_level_lt (a : AccountT) (rest : List AccountT) :
    sizeOf (nextLevel (a :: rest)) < sizeOf (a :: rest) := by
  have h1 := sizeOf_nextLevel (a :: rest)
  simp only [List.length_cons] at h1
  omega

/-- The breadth-first specification: all nodes of the current frontier, then
the level order of the concatenation of their children. -/
def levelOrder : List AccountT → List AccountT
  | [] => []
  | a :: rest => (a :: rest) ++ levelOrder (nextLevel (a :: rest))
termination_by q => sizeOf q
decreasing_by
  exact next_level_lt _ _

/-- The queue invariant: running the queue `q1 ++ q2` first yields all of
`q1`, then continues on `q2` extended with the children of `q1`. -/
theorem walkO_round : ∀ q1 q2 : List AccountT,
    walkO (q1 ++ q2) = q1 ++ walkO (q2 ++ nextLevel q1) := by
  intro q1
  induction q1 with
  | nil =>
    intro q2
    rw [nextLevel_nil]
    simp
  | cons a q1' ih =>
    intro q2
    rw [List.cons_append, walkO, List.append_assoc q1' q2 a.children, ih (q2 ++ a.children),
      nextLevel_cons, List.cons_append, List.append_assoc q2 a.children (nextLevel q1')]

/-- The queue-based traversal visits accounts in breadth-first (level)
order. -/
theorem walkO_eq_levelOrder (q : List AccountT) : walkO q = levelOrder q := by
  cases q with
  | nil => simp only [walkO, levelOrder]
  | cons a rest =>
    have h1 := walkO_round (a :: rest) []
    rw [List.append_nil, List.nil_append] at h1
    rw [h1]
    simp only [levelOrder]
    congr 1
    exact walkO_eq_levelOrder (nextLevel (a :: rest))
termination_by sizeOf q
decreasing_by
  exact next_level_lt _ _

theorem walkAux_map_acct (q : List AccountT) (n : Nat) :
    (walkAux q n).1.map WalkEntry.acct = walkO q := by
  cases q with
  | nil => simp only [walkAux, walkO, List.map_nil]
  | cons a rest =>
    simp only [walkAux, walkO, List.map_cons]
    congr 1
    exact walkAux_map_acct (rest ++ a.children) (n + 1)
termination_by sizeOf q
decreasing_by
  exact queue_step_lt _ _

theorem walkAux_entries (q : List AccountT) (n : Nat) :
    ∀ e ∈ (walkAux q n).1, e.snapChildren = e.acct.children ∧
      e.splits = e.acct.splits ∧ n ≤ e.snapRef := by
  cases q with
  | nil =>
    intro e he
    simp [walkAux] at he
  | cons a rest =>
    intro e he
    simp only [walkAux, List.mem_cons] at he
    cases he with
    | inl h => subst h; exact ⟨rfl, rfl, le_rfl⟩
    | inr h =>
      have hrec := walkAux_entries (rest ++ a.children) (n + 1) e h
      exact ⟨hrec.1, hrec.2.1, le_trans (Nat.le_succ n) hrec.2.2⟩
termination_by sizeOf q
decreasing_by
  exact queue_step_lt _ _

/-- A write to a list object in the caller's heap. -/
def updateMem (m : Nat → List AccountT) (r : Nat) (v : List AccountT) :
    Nat → List AccountT :=
  fun q => if q = r then v else m q

/-- C7: `walk` started on an account enumerates the subtree in breadth-first
(level) order; each yielded entry carries the account, a snapshot whose
contents equal the account's direct children, and the account's splits; the
snapshot is a fresh list object — its reference is distinct from every
children-list reference of the tree — so writing to it leaves every tree
children list unchanged. -/
theorem c7_walk_breadth_first (a : AccountT) (n0 : Nat)
    (htree : ∀ r ∈ AccountT.refs a, r < n0) :
    ((walkAux [a] n0).1.map WalkEntry.acct = levelOrder [a]) ∧
    (∀ e ∈ (walkAux [a] n0).1,
      e.snapChildren = e.acct.children ∧ e.splits = e.acct.splits) ∧
    (∀ e ∈ (walkAux [a] n0).1, ∀ r ∈ AccountT.refs a, e.snapRef ≠ r) ∧
    (∀ e ∈ (walkAux [a] n0).1, ∀ (m : Nat → List AccountT) (v : List AccountT),
      ∀ r ∈ AccountT.refs a, updateMem m e.snapRef v r = m r) := by
  have hfresh : ∀ e ∈ (walkAux [a] n0).1, ∀ r ∈ AccountT.refs a, e.snapRef ≠ r := by
    intro e he r hr
    have h1 := (walkAux_entries [a] n0 e he).2.2
    have h2 := htree r hr
    omega
  refine ⟨?_, ?_, hfresh, ?_⟩
  · rw [walkAux_map_acct]
    exact walkO_eq_levelOrder [a]
  · intro e he
    exact ⟨(walkAux_entries [a] n0 e he).1, (walkAux_entries [a] n0 e he).2.1⟩
  · intro e he m v r hr
    simp only [updateMem]
    rw [if_neg]
    intro hc
    exact hfresh e he r hr hc.symm

theorem c7_walk_breadth_first_witness :
    (∀ r ∈ AccountT.refs
        (.node "root" 0 [.node "c1" 1 [] ["s1"], .node "c2" 2 [] []] ["s0"]), r < 3) ∧
    ((walkAux [.node "root" 0 [.node "c1" 1 [] ["s1"], .node "c2" 2 [] []] ["s0"]] 3).1.map
        WalkEntry.acct =
      levelOrder [.node "root" 0 [.node "c1" 1 [] ["s1"], .node "c2" 2 [] []] ["s0"]]) :=
  ⟨by simp +decide [AccountT.refs, refsList],
   (c7_walk_breadth_first
      (.node "root" 0 [.node "c1" 1 [] ["s1"], .node "c2" 2 [] []] ["s0"]) 3
      (by simp +decide [AccountT.refs, refsList])).1⟩

end Gnucash

namespace Gnucash

/-! ## The streaming decoder _iterparse (C5)

The event loop of `_iterparse` is rephrased as the equivalent structural
recursion over the element tree: the `path` stack at an event is exactly the
chain of currently open ancestors, so an element's processing receives its
depth and its parent's tag.  Namespace prefixes are pre-resolved to Clark
names (the `start-ns` bookkeeping), and the `print` call and `elem.clear()`
of the source are outside the model (they do not affect the result).  All
`.text` reads are kept as `Option String`, as in ElementTree. -/

def gncBookTag : String := "\x7bhttp://www.gnucash.org/XML/gnc\x7dbook"

def gncCountDataTag : String := "\x7bhttp://www.gnucash.org/XML/gnc\x7dcount-data"

def cdTypeAttr : String := "\x7bhttp://www.gnucash.org/XML/cd\x7dtype"

def bookIdTag : String := "\x7bhttp://www.gnucash.org/XML/book\x7did"

def gncCommodityTag : String := "\x7bhttp://www.gnucash.org/XML/gnc\x7dcommodity"

def gncAccountTag : String := "\x7bhttp://www.gnucash.org/XML/gnc\x7daccount"

def gncTransactionTag : String := "\x7bhttp://www.gnucash.org/XML/gnc\x7dtransaction"

def cmdtySpaceTag : String := "\x7bhttp://www.gnucash.org/XML/cmdty\x7dspace"

def cmdtyIdTag : String := "\x7bhttp://www.gnucash.org/XML/cmdty\x7did"

def cmdtyNameTag : String := "\x7bhttp://www.gnucash.org/XML/cmdty\x7dname"

def cmdtyXcodeTag : String := "\x7bhttp://www.gnucash.org/XML/cmdty\x7dxcode"

def actNameTag : String := "\x7bhttp://www.gnucash.org/XML/act\x7dname"

def actIdTag : String := "\x7bhttp://www.gnucash.org/XML/act\x7did"

def actTypeTag : String := "\x7bhttp://www.gnucash.org/XML/act\x7dtype"

def actCmdtyTag : String := "\x7bhttp://www.gnucash.org/XML/act\x7dcmdty"

def actParentTag : String := "\x7bhttp://www.gnucash.org/XML/act\x7dparent"

def trnIdTag : String := "\x7bhttp://www.gnucash.org/XML/trn\x7did"

def trnCurrencyTag : String := "\x7bhttp://www.gnucash.org/XML/trn\x7dcurrency"

def trnDatePostedTag : String := "\x7bhttp://www.gnucash.org/XML/trn\x7ddate-posted"

def trnDateEnteredTag : String := "\x7bhttp://www.gnucash.org/XML/trn\x7ddate-entered"

def trnDescriptionTag : String := "\x7bhttp://www.gnucash.org/XML/trn\x7ddescription"

def trnSplitsTag : String := "\x7bhttp://www.gnucash.org/XML/trn\x7dsplits"

def trnSplitTag : String := "\x7bhttp://www.gnucash.org/XML/trn\x7dsplit"

def splitIdTag : String := "\x7bhttp://www.gnucash.org/XML/split\x7did"

def splitMemoTag : String := "\x7bhttp://www.gnucash.org/XML/split\x7dmemo"

def splitRecStateTag : String := "\x7bhttp://www.gnucash.org/XML/split\x7dreconciled-state"

def splitRecDateTag : String := "\x7bhttp://www.gnucash.org/XML/split\x7dreconcile-date"

def splitValueTag : String := "\x7bhttp://www.gnucash.org/XML/split\x7dvalue"

def splitQuantityTag : String := "\x7bhttp://www.gnucash.org/XML/split\x7dquantity"

def splitAccountTag : String := "\x7bhttp://www.gnucash.org/XML/split\x7daccount"

def splitActionTag : String := "\x7bhttp://www.gnucash.org/XML/split\x7daction"

/-- `find(path).text`: AttributeError on a missing child; a present child's
text may still be None. -/
def textOf : Option XElem → Except PyError (Option String)
  | none => .error .attributeError
  | some e => .ok e.text

/-- `findall` restricted to one path segment: direct children by tag. -/
def childrenTagged (e : XElem) (t : String) : List XElem :=
  e.children.filter (fun c => c.tag == t)

structure ICommodity where
  space : Option String
  symbol : Option String
  name : Option XElem
  xcode : Option String

structure ISplit where
  guid : Option String
  memo : Option String
  reconciled_state : Option String
  reconcile_date : Option PyDate
  value : ℚ
  quantity : ℚ
  account : Option String
  transaction : Option String
  action : Option String

structure IAccount where
  name : Option String
  guid : Option String
  actype : Option String
  parent : Option String
  commodity : Option (Option String × Option String)
  splits : List ISplit

/-- The Book object built by `_iterparse`: `Book(tree=None, guid=None)`,
with the commodity and account collections the handlers append to (accounts
are tracked by guid into the accounts dict, which holds the shared mutable
objects). -/
structure IBook where
  guid : Option String
  commodities : List ICommodity
  accounts : List (Option String)

structure IterState where
  book : Option IBook
  commoditiesdict : List ((Option String × Option String) × ICommodity)
  accountsdict : List (Option String × IAccount)

/-- `_add_guid`: `book.guid = elem.text` (AttributeError when no book
element was opened). -/
def addGuid (st : IterState) (e : XElem) : IterState × Option PyError :=
  match st.book with
  | none => (st, some .attributeError)
  | some b => ({ st with book := some { b with guid := e.text } }, none)

/-- `_add_commodity`: positional `Commodity(c_space, c_id)` (no keyword
bug here); `commodity.name` is assigned the found element itself, not its
text; the dict entry is written before the book append. -/
def addCommodity (st : IterState) (e : XElem) : IterState × Option PyError :=
  match textOf (findChild e cmdtySpaceTag) with
  | .error err => (st, some err)
  | .ok cSpace =>
    match textOf (findChild e cmdtyIdTag) with
    | .error err => (st, some err)
    | .ok cId =>
      let commodity : ICommodity :=
        { space := cSpace, symbol := cId, name := findChild e cmdtyNameTag,
          xcode := (findChild e cmdtyXcodeTag).bind XElem.text }
      let st1 := { st with
        commoditiesdict := dictInsert st.commoditiesdict (cSpace, cId) commodity }
      match st1.book with
      | none => (st1, some .attributeError)
      | some b =>
        let b2 := { b with commodities := b.commodities ++ [commodity] }
        ({ st1 with book := some b2 }, none)

/-- `_add_account`.  `if c_tree:` is ElementTree truthiness: the found
element counts as true only when it has children.  The commodity and parent
lookups are plain subscripts whose KeyError the caller swallows. -/
def addAccount (st : IterState) (e : XElem) : IterState × Option PyError :=
  match textOf (findChild e actNameTag) with
  | .error err => (st, some err)
  | .ok actName =>
    match textOf (findChild e actIdTag) with
    | .error err => (st, some err)
    | .ok actId =>
      match textOf (findChild e actTypeTag) with
      | .error err => (st, some err)
      | .ok actType =>
        let base : IAccount :=
          { name := actName, guid := actId, actype := actType, parent := none,
            commodity := none, splits := [] }
        let withCmdty : Except PyError IAccount :=
          match findChild e actCmdtyTag with
          | some ct =>
            if ct.children.isEmpty then .ok base
            else
              match textOf (findChild ct cmdtySpaceTag) with
              | .error err => .error err
              | .ok cs =>
                match textOf (findChild ct cmdtyIdTag) with
                | .error err => .error err
                | .ok ci =>
                  match dictLookup st.commoditiesdict (cs, ci) with
                  | none => .error .keyError
                  | some _ => .ok { base with commodity := some (cs, ci) }
          | none => .ok base
        match withCmdty with
        | .error err => (st, some err)
        | .ok acct1 =>
          let withParent : Except PyError IAccount :=
            if actType ≠ some "ROOT" then
              match textOf (findChild e actParentTag) with
              | .error err => .error err
              | .ok actParent =>
                match dictLookup st.accountsdict actParent with
                | none => .error .keyError
                | some _ => .ok { acct1 with parent := actParent }
            else .ok acct1
          match withParent with
          | .error err => (st, some err)
          | .ok acct2 =>
            let st1 := { st with
              accountsdict := dictInsert st.accountsdict actId acct2 }
            match st1.book with
            | none => (st1, some .attributeError)
            | some b =>
              let b2 := { b with accounts := b.accounts ++ [actId] }
              ({ st1 with book := some b2 }, none)

/-- `_get_split_from_trn`: all reads precede the single mutation
(`account.splits.append`), so a failing split leaves the state unchanged. -/
def getSplitFromTrn (st : IterState) (e : XElem) (trnGuid : Option String) :
    IterState × Except PyError ISplit :=
  match textOf (findChild e splitIdTag) with
  | .error err => (st, .error err)
  | .ok guid =>
    let memo := (findChild e splitMemoTag).bind XElem.text
    match textOf (findChild e splitRecStateTag) with
    | .error err => (st, .error err)
    | .ok recState =>
      let recDateElt := (findChild e splitRecDateTag).bind
        (fun rd => findChild rd tsDateTag)
      match (match recDateElt with
        | none => Except.ok (none : Option PyDate)
        | some de =>
          match de.text with
          | none => Except.error (PyError.typeError "parser must be a string")
          | some t => Except.ok (some (parseDate t))) with
      | .error err => (st, .error err)
      | .ok recDate =>
        match textOf (findChild e splitValueTag) with
        | .error err => (st, .error err)
        | .ok none => (st, .error .attributeError)
        | .ok (some valueTxt) =>
          match parseNumber valueTxt with
          | .error err => (st, .error err)
          | .ok value =>
            match textOf (findChild e splitQuantityTag) with
            | .error err => (st, .error err)
            | .ok none => (st, .error .attributeError)
            | .ok (some quantityTxt) =>
              match parseNumber quantityTxt with
              | .error err => (st, .error err)
              | .ok quantity =>
                match textOf (findChild e splitAccountTag) with
                | .error err => (st, .error err)
                | .ok accountGuid =>
                  match dictLookup st.accountsdict accountGuid with
                  | none => (st, .error .keyError)
                  | some acct =>
                    let action := (findChild e splitActionTag).bind XElem.text
                    let split : ISplit := ⟨guid, memo, recState, recDate, value,
                      quantity, accountGuid, trnGuid, action⟩
                    let acct2 := { acct with splits := acct.splits ++ [split] }
                    ({ st with accountsdict :=
                        dictInsert st.accountsdict accountGuid acct2 }, .ok split)

def trnSplitsLoop (trnGuid : Option String) :
    IterState → List XElem → IterState × Option PyError
  | st, [] => (st, none)
  | st, t :: ts =>
    match getSplitFromTrn st t trnGuid with
    | (st1, .error err) => (st1, some err)
    | (st1, .ok _) => trnSplitsLoop trnGuid st1 ts

/-- `_add_transaction`: the built Transaction object is dropped (the source
never stores it); its effect is the `account.splits` mutations of its
splits.  A split's KeyError aborts the handler mid-way, keeping the earlier
mutations, and is swallowed by the caller. -/
def addTransaction (st : IterState) (e : XElem) : IterState × Option PyError :=
  match textOf (findChild e trnIdTag) with
  | .error err => (st, some err)
  | .ok guid =>
    match textOf ((findChild e trnCurrencyTag).bind
        (fun ce => findChild ce cmdtySpaceTag)) with
    | .error err => (st, some err)
    | .ok cSpace =>
      match textOf ((findChild e trnCurrencyTag).bind
          (fun ce => findChild ce cmdtyIdTag)) with
      | .error err => (st, some err)
      | .ok cSymbol =>
        match dictLookup st.commoditiesdict (cSpace, cSymbol) with
        | none => (st, some .keyError)
        | some _ =>
          match textOf ((findChild e trnDatePostedTag).bind
              (fun de => findChild de tsDateTag)) with
          | .error err => (st, some err)
          | .ok none => (st, some (.typeError "parser must be a string"))
          | .ok (some _) =>
            match textOf ((findChild e trnDateEnteredTag).bind
                (fun de => findChild de tsDateTag)) with
            | .error err => (st, some err)
            | .ok none => (st, some (.typeError "parser must be a string"))
            | .ok (some _) =>
              match textOf (findChild e trnDescriptionTag) with
              | .error err => (st, some err)
              | .ok _ =>
                trnSplitsLoop guid st
                  ((childrenTagged e trnSplitsTag).flatMap
                    (fun se => childrenTagged se trnSplitTag))

/-- The `tag_function` dispatch dict: a tag outside it raises KeyError. -/
def tagHandler (st : IterState) (e : XElem) : IterState × Option PyError :=
  if e.tag = bookIdTag then addGuid st e
  else if e.tag = gncCommodityTag then addCommodity st e
  else if e.tag = gncAccountTag then addAccount st e
  else if e.tag = gncTransactionTag then addTransaction st e
  else (st, some .keyError)

/-- `try: tag_function[elem.tag](elem) except KeyError: pass` — the except
clause also swallows KeyErrors raised inside the handlers. -/
def callHandler (st : IterState) (e : XElem) : IterState × Option PyError :=
  match tagHandler st e with
  | (st1, some .keyError) => (st1, none)
  | r => r

/-- The `start` event's state effect: entering a depth-2 gnc:book element
creates `Book(tree=None, guid=None)`. -/
def startState (depth : Nat) (st : IterState) (e : XElem) : IterState :=
  if depth = 2 ∧ e.tag = gncBookTag then { st with book := some ⟨none, [], []⟩ }
  else st

/-- The `end` event: depth-3 children of gnc:book go to the tag_function
dispatch (KeyError swallowed); otherwise a gnc:count-data element checks its
cd:type attribute and count text. -/
def endEvent (depth : Nat) (parentTag : String) (st2 : IterState) (e : XElem) :
    IterState × Option PyError :=
  if depth = 3 ∧ parentTag = gncBookTag then callHandler st2 e
  else if e.tag = gncCountDataTag then
    match attrLookup e cdTypeAttr with
    | none => (st2, some .keyError)
    | some ty =>
      if ty = "book" ∧ e.text ≠ some "1" then
        (st2, some (.valueError "Only 1 book per XML file allowed"))
      else (st2, none)
  else (st2, none)

mutual

/-- One element of the event stream: the `start` event checks the root tag
and opens the Book; the `end` event dispatches depth-3 book children to the
handlers, and checks gnc:count-data records elsewhere. -/
def iterElem (depth : Nat) (parentTag : String) (st : IterState) (e : XElem) :
    IterState × Option PyError :=
  if depth = 1 ∧ e.tag ≠ "gnc-v2" then
    (st, some (.valueError "Not a valid GNU Cash v2 XML file"))
  else
    match iterList (depth + 1) e.tag (startState depth st e) e.children with
    | (st2, some err) => (st2, some err)
    | (st2, none) => endEvent depth parentTag st2 e
termination_by (sizeOf e, 0)
decreasing_by
  exact Prod.Lex.left _ _ (sizeOf_children_lt e)

def iterList (depth : Nat) (parentTag : String) (st : IterState) :
    List XElem → IterState × Option PyError
  | [] => (st, none)
  | c :: cs =>
    match iterElem depth parentTag st c with
    | (st1, some err) => (st1, some err)
    | (st1, none) => iterList depth parentTag st1 cs
termination_by l => (sizeOf l, 1)
decreasing_by
  · apply Prod.Lex.left
    have h : sizeOf (c :: cs) = 1 + sizeOf c + sizeOf cs := by simp
    omega
  · apply Prod.Lex.left
    have h : sizeOf (c :: cs) = 1 + sizeOf c + sizeOf cs := by simp
    omega

end

/-- Demote the event loop's final (state, pending-exception) pair to the
parse result: an uncaught exception aborts, otherwise the built book is
returned. -/
def iterFinish (r : IterState × Option PyError) : Except PyError (Option IBook) :=
  match r with
  | (_, some err) => .error err
  | (st, none) => .ok st.book

/-- `_iterparse` on a document tree: run the event loop from the root; an
uncaught exception aborts, otherwise the built book (None when the document
had no gnc:book element) is returned. -/
def iterparse (doc : XElem) : Except PyError (Option IBook) :=
  iterFinish (iterElem 1 "" ⟨none, [], []⟩ doc)

end Gnucash

namespace Gnucash

/-- A gnc:count-data record of type "book" declaring anything but "1"
raises at its end event, whatever the state. -/
theorem iterElem_countdata_err (c : XElem) (hc : c.tag = gncCountDataTag)
    (hattr : attrLookup c cdTypeAttr = some "book") (htext : c.text ≠ some "1") :
    ∀ (ptag : String) (st : IterState), (iterElem 2 ptag st c).2 ≠ none := by
  intro ptag st
  have hb1 : ¬(2 = 1 ∧ c.tag ≠ "gnc-v2") := by simp
  have hbook : ¬c.tag = gncBookTag := by
    rw [hc]
    decide
  have hstart : startState 2 st c = st := by
    simp only [startState]
    rw [if_neg (fun h => hbook h.2)]
  have hend : ∀ st2, endEvent 2 ptag st2 c =
      (st2, some (.valueError "Only 1 book per XML file allowed")) := by
    intro st2
    simp only [endEvent]
    rw [if_neg (by simp), if_pos hc, hattr]
    simp [htext]
  unfold iterElem
  rw [if_neg hb1, hstart]
  cases hil : iterList (2 + 1) c.tag st c.children with
  | mk st2 o =>
    cases o with
    | some err => simp
    | none =>
      show (endEvent 2 ptag st2 c).2 ≠ none
      rw [hend st2]
      simp

theorem iterList_err (c : XElem)
    (hcerr : ∀ (ptag : String) (st : IterState), (iterElem 2 ptag st c).2 ≠ none) :
    ∀ (pre : List XElem) (post : List XElem) (ptag : String) (st : IterState),
      (iterList 2 ptag st (pre ++ c :: post)).2 ≠ none := by
  intro pre
  induction pre with
  | nil =>
    intro post ptag st
    simp only [List.nil_append]
    rw [iterList]
    cases hie : iterElem 2 ptag st c with
    | mk st1 o =>
      cases o with
      | some err => simp
      | none =>
        have h2 : (iterElem 2 ptag st c).2 = none := by rw [hie]
        exact absurd h2 (hcerr ptag st)
  | cons x pre' ih =>
    intro post ptag st
    simp only [List.cons_append]
    rw [iterList]
    cases hie : iterElem 2 ptag st x with
    | mk st1 o =>
      cases o with
      | some err => simp
      | none => exact ih post ptag st1

unseal Rat.mul Rat.add Rat.inv Rat.sub in
/-- C5: `_iterparse` rejects a document whose root tag is not gnc-v2 (the
root ValueError); a document containing a structural gnc:count-data child of
the root with type "book" and a count other than "1" is never decoded; and
the canonical such document fails with exactly the one-book ValueError. -/
theorem c5_invalid_document (doc : XElem) (pre post : List XElem) (c : XElem) :
    (doc.tag ≠ "gnc-v2" →
      iterparse doc = .error (.valueError "Not a valid GNU Cash v2 XML file")) ∧
    (doc.children = pre ++ c :: post → c.tag = gncCountDataTag →
      attrLookup c cdTypeAttr = some "book" → c.text ≠ some "1" →
      ∃ err, iterparse doc = .error err) ∧
    (iterparse (XElem.mk "gnc-v2" [] none
        [XElem.mk gncCountDataTag [(cdTypeAttr, "book")] (some "2") []]) =
      .error (.valueError "Only 1 book per XML file allowed")) := by
  refine ⟨?_, ?_, ?_⟩
  · intro htag
    unfold iterparse iterElem
    rw [if_pos (And.intro rfl htag)]
    rfl
  · intro hch hc hattr htext
    by_cases hroot : doc.tag = "gnc-v2"
    · have hb1 : ¬(1 = 1 ∧ doc.tag ≠ "gnc-v2") := fun h => h.2 hroot
      have hstart : startState 1 ⟨none, [], []⟩ doc = ⟨none, [], []⟩ := by
        simp only [startState]
        rw [if_neg (by simp)]
      have herr := iterList_err c (iterElem_countdata_err c hc hattr htext) pre post
        doc.tag ⟨none, [], []⟩
      unfold iterparse iterElem
      rw [if_neg hb1, hstart, hch]
      cases hil : iterList (1 + 1) doc.tag ⟨none, [], []⟩ (pre ++ c :: post) with
      | mk st2 o =>
        cases o with
        | some err => exact ⟨err, rfl⟩
        | none =>
          have h2 : (iterList 2 doc.tag ⟨none, [], []⟩ (pre ++ c :: post)).2 = none := by
            rw [show (2 : Nat) = 1 + 1 from rfl, hil]
          exact absurd h2 herr
    · exact ⟨.valueError "Not a valid GNU Cash v2 XML file", (by
        unfold iterparse iterElem
        rw [if_pos (And.intro rfl hroot)]
        rfl)⟩
  · have hnil : iterList (2 + 1) gncCountDataTag ⟨none, [], []⟩ [] =
        (⟨none, [], []⟩, none) := by
      rw [iterList]
    have he : iterElem 2 "gnc-v2" ⟨none, [], []⟩
        (XElem.mk gncCountDataTag [(cdTypeAttr, "book")] (some "2") []) =
        (⟨none, [], []⟩, some (.valueError "Only 1 book per XML file allowed")) := by
      unfold iterElem
      rw [if_neg (by decide)]
      show (match iterList (2 + 1) gncCountDataTag ⟨none, [], []⟩ [] with
            | (st2, some err) => (st2, some err)
            | (st2, none) => endEvent 2 "gnc-v2" st2
                (XElem.mk gncCountDataTag [(cdTypeAttr, "book")] (some "2") [])) = _
      rw [hnil]
      rfl
    have hlist : iterList (1 + 1) "gnc-v2" ⟨none, [], []⟩
        [XElem.mk gncCountDataTag [(cdTypeAttr, "book")] (some "2") []] =
        (⟨none, [], []⟩, some (.valueError "Only 1 book per XML file allowed")) := by
      rw [iterList, he]
    have hmid : (match iterList (1 + 1) "gnc-v2" ⟨none, [], []⟩
            [XElem.mk gncCountDataTag [(cdTypeAttr, "book")] (some "2") []] with
          | (st2, some err) => (st2, some err)
          | (st2, none) => endEvent 1 "" st2 (XElem.mk "gnc-v2" [] none
              [XElem.mk gncCountDataTag [(cdTypeAttr, "book")] (some "2") []])) =
        ((⟨none, [], []⟩ : IterState),
          some (PyError.valueError "Only 1 book per XML file allowed")) := by
      rw [hlist]
    have hdoc : iterElem 1 "" ⟨none, [], []⟩ (XElem.mk "gnc-v2" [] none
        [XElem.mk gncCountDataTag [(cdTypeAttr, "book")] (some "2") []]) =
        (⟨none, [], []⟩, some (.valueError "Only 1 book per XML file allowed")) := by
      unfold iterElem
      rw [if_neg (by decide)]
      rw [show (XElem.mk "gnc-v2" [] none
          [XElem.mk gncCountDataTag [(cdTypeAttr, "book")] (some "2") []]).tag =
          "gnc-v2" from rfl]
      rw [show (XElem.mk "gnc-v2" [] none
          [XElem.mk gncCountDataTag [(cdTypeAttr, "book")] (some "2") []]).children =
          [XElem.mk gncCountDataTag [(cdTypeAttr, "book")] (some "2") []] from rfl]
      rw [show startState 1 ⟨none, [], []⟩ (XElem.mk "gnc-v2" [] none
          [XElem.mk gncCountDataTag [(cdTypeAttr, "book")] (some "2") []]) =
          ⟨none, [], []⟩ from rfl]
      exact hmid
    unfold iterparse
    rw [hdoc]
    rfl

/-- Witness: a wrong root tag is rejected, and the concrete two-book count
document fails. -/
theorem c5_invalid_document_witness :
    iterparse (XElem.mk "bad-root" [] none []) =
      .error (.valueError "Not a valid GNU Cash v2 XML file") ∧
    (∃ err, iterparse (XElem.mk "gnc-v2" [] none
        [XElem.mk gncCountDataTag [(cdTypeAttr, "book")] (some "2") []]) =
      .error err) :=
  ⟨(c5_invalid_document (XElem.mk "bad-root" [] none []) [] []
      (XElem.mk "" [] none [])).1 (by decide),
   (c5_invalid_document (XElem.mk "gnc-v2" [] none
        [XElem.mk gncCountDataTag [(cdTypeAttr, "book")] (some "2") []]) [] []
      (XElem.mk gncCountDataTag [(cdTypeAttr, "book")] (some "2") [])).2.1
      rfl rfl rfl (by decide)⟩

end Gnucash
